import Mathlib

/-!
Shallow embedding of the to-do manager's data core (TodoManager.ts, Todo.ts,
Category.ts, FileManager.ts) together with proofs about its specification.

Conventions used throughout:
* JS `Date` objects are modelled as `Nat` timestamps (milliseconds since the
  epoch); `new Date()` call sites take an explicit `now : Nat` argument.
* validator results `{ isValid, error? }` are modelled as `Option String`
  (`none` = valid, `some e` = invalid with message `e`).
* thrown `TodoManagerError`s are modelled by their machine-readable `code`
  string carried in `Except String`.
* `uuidv4()` is modelled as an injective id generator driven by a counter
  threaded through the manager state.
-/

set_option linter.unusedVariables false

/-- Priority levels (the `Priority` enum of Todo.ts). -/
inductive Priority where
  | low
  | medium
  | high
deriving DecidableEq, Repr

/-- Timestamps (JS `Date`), modelled as milliseconds since the epoch. -/
abbrev Date := Nat

/-- The `Todo` record of Todo.ts.  Optional fields are `Option`s. -/
structure Todo where
  id : String
  title : String
  description : Option String
  completed : Bool
  priority : Priority
  categoryId : String
  createdAt : Date
  completedAt : Option Date
  dueDate : Option Date
deriving DecidableEq, Repr

/-- The `TodoInput` type of Todo.ts (a `Todo` without generated fields). -/
structure TodoInput where
  title : String
  description : Option String
  completed : Bool
  priority : Priority
  categoryId : String
  dueDate : Option Date
deriving DecidableEq, Repr

/-- The `Category` record of Category.ts. -/
structure Category where
  id : String
  name : String
  color : String
  todoCount : Nat
deriving DecidableEq, Repr

/-- The `CategoryInput` type of Category.ts. -/
structure CategoryInput where
  name : String
  color : String
deriving DecidableEq, Repr

/-- JS `String.prototype.trim`, modelled by dropping whitespace characters
from both ends of the character list. -/
def trimJs (s : String) : String :=
  String.mk (((s.data.dropWhile Char.isWhitespace).reverse.dropWhile Char.isWhitespace).reverse)

/-- JS `s.startsWith(p)`. -/
def startsWithJs (s p : String) : Bool := p.data.isPrefixOf s.data

/-- JS `s.endsWith(p)`. -/
def endsWithJs (s p : String) : Bool := p.data.isSuffixOf s.data

/-- TodoValidator.validateTitle: non-empty (JS falsiness of `""`), non-blank,
at most 200 characters. -/
def validateTitle (title : String) : Option String :=
  if title = "" then some "Title is required and must be a string"
  else if (trimJs title).length = 0 then some "Title cannot be empty"
  else if title.length > 200 then some "Title cannot exceed 200 characters"
  else none

/-- TodoValidator.validateDescription: optional, at most 1000 characters. -/
def validateDescription : Option String → Option String
  | none => none
  | some d =>
    if d.length > 1000 then some "Description cannot exceed 1000 characters" else none

/-- TodoValidator.validatePriority: membership in the `Priority` enum, which
the typed embedding guarantees, so the check always passes. -/
def validatePriority (_priority : Priority) : Option String := none

/-- TodoValidator.validateCategoryId: non-empty, non-blank string. -/
def validateCategoryId (categoryId : String) : Option String :=
  if categoryId = "" then some "Category ID is required and must be a string"
  else if (trimJs categoryId).length = 0 then some "Category ID cannot be empty"
  else none

/-- TodoValidator.validateDueDate: optional; every modelled `Date` (a `Nat`)
is a valid date, so the check always passes. -/
def validateDueDate (_dueDate : Option Date) : Option String := none

/-- TodoValidator.validateTodoInput: collects the individual field errors in
source order (`completed` is a `Bool` by typing, so that check cannot fail). -/
def validateTodoInput (input : TodoInput) : List String :=
  (validateTitle input.title).toList ++
  (validateDescription input.description).toList ++
  (validatePriority input.priority).toList ++
  (validateCategoryId input.categoryId).toList ++
  (validateDueDate input.dueDate).toList

/-- JS `String.prototype.toLowerCase`, modelled as per-character lowercasing
over the string's characters. -/
def toLowerCase (s : String) : String := String.mk (s.data.map Char.toLower)

/-- The reserved category names of CategoryValidator.validateName. -/
def reservedNames : List String := ["all", "completed", "pending", "overdue"]

/-- CategoryValidator.validateName: non-empty, non-blank, at most 50
characters, not a reserved name (compared lowercased). -/
def validateName (name : String) : Option String :=
  if name = "" then some "Category name is required and must be a string"
  else if (trimJs name).length = 0 then some "Category name cannot be empty"
  else if name.length > 50 then some "Category name cannot exceed 50 characters"
  else if reservedNames.contains (toLowerCase name) then some "reserved category name"
  else none

/-- Character class of the hex-color regular expression `[A-Fa-f0-9]`. -/
def isHexDigit (c : Char) : Bool :=
  ('0' ≤ c && c ≤ '9') || ('a' ≤ c && c ≤ 'f') || ('A' ≤ c && c ≤ 'F')

/-- CategoryValidator.validateColor: the regex `^#?([A-Fa-f0-9]{6}|[A-Fa-f0-9]{3})$`
(an optional leading `#`, then exactly 6 or exactly 3 hex digits). -/
def validateColor (color : String) : Option String :=
  if color = "" then some "Color is required and must be a string"
  else
    let body := if startsWithJs color "#" then color.drop 1 else color
    if (body.length = 6 || body.length = 3) && body.data.all isHexDigit then none
    else some "Color must be a valid hex color code"

/-- CategoryValidator.validateCategoryInput: name error then color error. -/
def validateCategoryInput (input : CategoryInput) : List String :=
  (validateName input.name).toList ++ (validateColor input.color).toList

/-- CategoryValidator.isNameUnique: no existing category has the same name
compared case-insensitively (both sides lowercased). -/
def isNameUnique (name : String) (existingCategories : List Category) : Bool :=
  !existingCategories.any (fun category => toLowerCase category.name == toLowerCase name)

/-- Factory `createTodo` of Todo.ts: generated id and creation timestamp;
`completedAt` is set to `now` exactly when the input is already completed. -/
def createTodo (input : TodoInput) (freshId : String) (now : Date) : Todo :=
  { id := freshId
    createdAt := now
    completedAt := if input.completed then some now else none
    title := input.title
    description := input.description
    completed := input.completed
    priority := input.priority
    categoryId := input.categoryId
    dueDate := input.dueDate }

/-- Factory `createCategory` of Category.ts: generated id, zero count, and the
color normalized to carry a leading `#`. -/
def createCategory (input : CategoryInput) (freshId : String) : Category :=
  let normalizedColor := if startsWithJs input.color "#" then input.color else "#" ++ input.color
  { id := freshId
    todoCount := 0
    name := input.name
    color := normalizedColor }

/-- The `DEFAULT_CATEGORIES` starter set of Category.ts. -/
def DEFAULT_CATEGORIES : List CategoryInput :=
  [ { name := "Personal", color := "#3498db" },
    { name := "Work", color := "#2ecc71" },
    { name := "Shopping", color := "#f39c12" },
    { name := "Health", color := "#e74c3c" } ]

/-- TodoUtils.isOverdue: has a due date, is not completed, and the due date is
strictly in the past. -/
def isOverdue (todo : Todo) (now : Date) : Bool :=
  match todo.dueDate with
  | none => false
  | some d => if todo.completed then false else decide (d < now)

/-- A field of a JavaScript partial-update object.  A property can be absent,
present with the value `undefined` (which overwrites on object spread), or
present with a proper value. -/
inductive JsOpt (α : Type) where
  | absent
  | undef
  | val (a : α)
deriving DecidableEq, Repr

/-- Merging one update property into the current optional field, as the object
spread `{ ...currentTodo, ...updates }` does per property. -/
def JsOpt.mergeInto : JsOpt α → Option α → Option α
  | .absent, current => current
  | .undef, _ => none
  | .val a, _ => some a

/-- The `updates` argument of TodoManager.updateTodo
(`Partial<Omit<Todo, 'id' | 'createdAt'>>`).  Required `Todo` fields are
either absent or carry a value; optional `Todo` fields additionally admit an
explicit `undefined`. -/
structure TodoUpdate where
  title : Option String := none
  description : JsOpt String := .absent
  completed : Option Bool := none
  priority : Option Priority := none
  categoryId : Option String := none
  completedAt : JsOpt Date := .absent
  dueDate : JsOpt Date := .absent
deriving DecidableEq, Repr

/-- The object spread `{ ...currentTodo, ...updates }` of updateTodo
(`id` and `createdAt` cannot occur in the update object, by its type). -/
def applyTodoUpdate (currentTodo : Todo) (updates : TodoUpdate) : Todo :=
  { id := currentTodo.id
    title := updates.title.getD currentTodo.title
    description := updates.description.mergeInto currentTodo.description
    completed := updates.completed.getD currentTodo.completed
    priority := updates.priority.getD currentTodo.priority
    categoryId := updates.categoryId.getD currentTodo.categoryId
    createdAt := currentTodo.createdAt
    completedAt := updates.completedAt.mergeInto currentTodo.completedAt
    dueDate := updates.dueDate.mergeInto currentTodo.dueDate }

/-- The `updates` argument of TodoManager.updateCategory
(`Partial<Omit<Category, 'id' | 'todoCount'>>`).  A `todoCount` entry is kept
in the model so that the code's defensive overwrite of it is observable. -/
structure CategoryUpdate where
  name : Option String := none
  color : Option String := none
  todoCount : Option Nat := none
deriving DecidableEq, Repr

/-- TodoManager's configuration (fileManager config is irrelevant to the
in-memory operations modelled here). -/
structure TodoManagerConfig where
  autoSave : Bool
  createDefaultCategories : Bool
deriving DecidableEq, Repr

/-- The in-memory state of a TodoManager: the two record sets, the
`isInitialized` flag, and the counter driving the id generator. -/
structure ManagerState where
  todos : List Todo
  categories : List Category
  isInitialized : Bool
  nextId : Nat
deriving DecidableEq, Repr

/-- Model of `uuidv4()`: an injective id generator driven by a counter. -/
def uuid (n : Nat) : String := String.mk (List.replicate (n + 1) 'u')

/-- TodoManager.getTodosByCategory's underlying filter. -/
def getTodosByCategoryOf (todos : List Todo) (categoryId : String) : List Todo :=
  todos.filter (fun todo => todo.categoryId == categoryId)

/-- TodoManager.categoryExists' underlying check. -/
def categoryExistsIn (categories : List Category) (id : String) : Bool :=
  categories.any (fun cat => cat.id == id)

/-- Assigning `category.todoCount = n` to the first category found with the
given id (`this.categories.find(...)`), leaving the rest untouched. -/
def setTodoCountFirst : List Category → String → Nat → List Category
  | [], _, _ => []
  | c :: rest, categoryId, n =>
    if c.id == categoryId then { c with todoCount := n } :: rest
    else c :: setTodoCountFirst rest categoryId n

/-- TodoManager.updateCategoryTodoCount: recompute one category's count from
the current todos (a no-op when no category has the id). -/
def updateCategoryTodoCount (todos : List Todo) (categories : List Category)
    (categoryId : String) : List Category :=
  setTodoCountFirst categories categoryId (getTodosByCategoryOf todos categoryId).length

/-- TodoManager.updateCategoryTodoCounts: recompute every category's count. -/
def updateCategoryTodoCounts (todos : List Todo) (categories : List Category) :
    List Category :=
  categories.map (fun category =>
    { category with todoCount := (getTodosByCategoryOf todos category.id).length })

/-- `this.todos.find(todo => todo.id === id)`. -/
def findTodo (todos : List Todo) (id : String) : Option Todo :=
  todos.find? (fun todo => todo.id == id)

/-- Replacing the todo at the index found by `findIndex` (the first match). -/
def replaceFirstTodo : List Todo → String → Todo → List Todo
  | [], _, _ => []
  | t :: rest, id, newTodo =>
    if t.id == id then newTodo :: rest else t :: replaceFirstTodo rest id newTodo

/-- `this.todos.splice(todoIndex, 1)`: removing the first todo with the id. -/
def removeFirstTodo : List Todo → String → List Todo
  | [], _ => []
  | t :: rest, id => if t.id == id then rest else t :: removeFirstTodo rest id

/-- `this.categories.find(cat => cat.id === id)`. -/
def findCategory (categories : List Category) (id : String) : Option Category :=
  categories.find? (fun cat => cat.id == id)

/-- Replacing the category at the index found by `findIndex`. -/
def replaceFirstCategory : List Category → String → Category → List Category
  | [], _, _ => []
  | c :: rest, id, newCat =>
    if c.id == id then newCat :: rest else c :: replaceFirstCategory rest id newCat

/-- `this.categories.splice(categoryIndex, 1)`. -/
def removeFirstCategory : List Category → String → List Category
  | [], _ => []
  | c :: rest, id => if c.id == id then rest else c :: removeFirstCategory rest id

/-- TodoManager.addTodo.  Auto-save does not change the in-memory record sets
and is therefore not part of the state model. -/
def addTodo (st : ManagerState) (input : TodoInput) (now : Date) :
    Except String (Todo × ManagerState) :=
  if !st.isInitialized then .error "NOT_INITIALIZED"
  else if validateTodoInput input ≠ [] then .error "VALIDATION_ERROR"
  else if !categoryExistsIn st.categories input.categoryId then .error "CATEGORY_NOT_FOUND"
  else
    let todo := createTodo input (uuid st.nextId) now
    let todos := st.todos ++ [todo]
    let categories := updateCategoryTodoCount todos st.categories input.categoryId
    .ok (todo, { st with todos := todos, categories := categories, nextId := st.nextId + 1 })

/-- The completion-transition block of updateTodo: when `completed` is
supplied and differs from the current value, the update object's
`completedAt` is overwritten with `new Date()` (transition to completed) or
with `undefined` (transition back). -/
def applyCompletionTransition (updates : TodoUpdate) (currentTodo : Todo) (now : Date) :
    TodoUpdate :=
  match updates.completed with
  | some c =>
    if c != currentTodo.completed then
      if c then { updates with completedAt := JsOpt.val now }
      else { updates with completedAt := JsOpt.undef }
    else updates
  | none => updates

/-- The category-count recomputation of updateTodo: both the old and the new
category's counts are recomputed (against the already-updated todos) exactly
when a differing `categoryId` was supplied. -/
def updateTodoCategories (todos : List Todo) (categories : List Category)
    (oldCategoryId : String) (updCategoryId : Option String) : List Category :=
  match updCategoryId with
  | some newCategoryId =>
    if newCategoryId != oldCategoryId then
      updateCategoryTodoCount todos
        (updateCategoryTodoCount todos categories oldCategoryId) newCategoryId
    else categories
  | none => categories

/-- TodoManager.updateTodo: find, per-field validation, completion-transition
handling, merge, and recomputation of both counts when the category changes. -/
def updateTodo (st : ManagerState) (id : String) (updates : TodoUpdate) (now : Date) :
    Except String (Bool × ManagerState) :=
  if !st.isInitialized then .error "NOT_INITIALIZED"
  else match findTodo st.todos id with
  | none => .error "TODO_NOT_FOUND"
  | some currentTodo =>
    let oldCategoryId := currentTodo.categoryId
    if (match updates.title with
        | some t => (validateTitle t).isSome
        | none => false) then .error "VALIDATION_ERROR"
    else if (match updates.description with
        | .val d => (validateDescription (some d)).isSome
        | _ => false) then .error "VALIDATION_ERROR"
    else if (match updates.priority with
        | some p => (validatePriority p).isSome
        | none => false) then .error "VALIDATION_ERROR"
    else if (match updates.categoryId with
        | some c => !categoryExistsIn st.categories c
        | none => false) then .error "CATEGORY_NOT_FOUND"
    else
      let updates := applyCompletionTransition updates currentTodo now
      let updatedTodo := applyTodoUpdate currentTodo updates
      let todos := replaceFirstTodo st.todos id updatedTodo
      let categories := updateTodoCategories todos st.categories oldCategoryId updates.categoryId
      .ok (true, { st with todos := todos, categories := categories })

/-- TodoManager.deleteTodo. -/
def deleteTodo (st : ManagerState) (id : String) : Except String (Bool × ManagerState) :=
  if !st.isInitialized then .error "NOT_INITIALIZED"
  else match findTodo st.todos id with
  | none => .error "TODO_NOT_FOUND"
  | some todo =>
    let todos := removeFirstTodo st.todos id
    let categories := updateCategoryTodoCount todos st.categories todo.categoryId
    .ok (true, { st with todos := todos, categories := categories })

/-- TodoManager.toggleTodoCompletion: `updateTodo(id, { completed: !current })`. -/
def toggleTodoCompletion (st : ManagerState) (id : String) (now : Date) :
    Except String (Bool × ManagerState) :=
  if !st.isInitialized then .error "NOT_INITIALIZED"
  else match findTodo st.todos id with
  | none => .error "TODO_NOT_FOUND"
  | some todo => updateTodo st id { completed := some (!todo.completed) } now

/-- JS `String.prototype.includes` on character lists: `sub` occurs as a
contiguous substring. -/
def listContainsSub (sub : List Char) : List Char → Bool
  | [] => sub.isEmpty
  | c :: t => sub.isPrefixOf (c :: t) || listContainsSub sub t

/-- JS `s.includes(sub)`. -/
def strIncludes (s sub : String) : Bool := listContainsSub sub.data s.data

/-- TodoManager.searchTodos: lowercases the query and matches it against the
lowercased title, or the lowercased description when that is present and
non-empty (JS truthiness of `todo.description`). -/
def searchTodos (st : ManagerState) (query : String) : Except String (List Todo) :=
  if !st.isInitialized then .error "NOT_INITIALIZED"
  else
    let lowerQuery := toLowerCase query
    .ok (st.todos.filter (fun todo =>
      strIncludes (toLowerCase todo.title) lowerQuery ||
      (match todo.description with
       | some d => d != "" && strIncludes (toLowerCase d) lowerQuery
       | none => false)))

/-- TodoManager.getTodosByPriority's underlying filter. -/
def getTodosByPriorityOf (todos : List Todo) (p : Priority) : List Todo :=
  todos.filter (fun t => t.priority == p)

/-- The record returned by TodoManager.getStatistics (the priority breakdown
is flattened into one field per priority). -/
structure Statistics where
  totalTodos : Nat
  completedTodos : Nat
  pendingTodos : Nat
  overdueTodos : Nat
  totalCategories : Nat
  highCount : Nat
  mediumCount : Nat
  lowCount : Nat
deriving DecidableEq, Repr

/-- TodoManager.getStatistics. -/
def getStatistics (st : ManagerState) (now : Date) : Except String Statistics :=
  if !st.isInitialized then .error "NOT_INITIALIZED"
  else
    .ok { totalTodos := st.todos.length
          completedTodos := (st.todos.filter (fun t => t.completed)).length
          pendingTodos := (st.todos.filter (fun t => !t.completed)).length
          overdueTodos := (st.todos.filter (fun t => isOverdue t now)).length
          totalCategories := st.categories.length
          highCount := (getTodosByPriorityOf st.todos .high).length
          mediumCount := (getTodosByPriorityOf st.todos .medium).length
          lowCount := (getTodosByPriorityOf st.todos .low).length }

/-- TodoManager.addCategory. -/
def addCategory (st : ManagerState) (input : CategoryInput) :
    Except String (Category × ManagerState) :=
  if !st.isInitialized then .error "NOT_INITIALIZED"
  else if validateCategoryInput input ≠ [] then .error "VALIDATION_ERROR"
  else if !isNameUnique input.name st.categories then .error "DUPLICATE_CATEGORY_NAME"
  else
    let category := createCategory input (uuid st.nextId)
    .ok (category,
      { st with categories := st.categories ++ [category], nextId := st.nextId + 1 })

/-- TodoManager.updateCategory: the merged result always preserves the current
`todoCount` (`todoCount: currentCategory.todoCount` after the spread). -/
def updateCategory (st : ManagerState) (id : String) (updates : CategoryUpdate) :
    Except String (Bool × ManagerState) :=
  if !st.isInitialized then .error "NOT_INITIALIZED"
  else match findCategory st.categories id with
  | none => .error "CATEGORY_NOT_FOUND"
  | some currentCategory =>
    if (match updates.name with
        | some n => (validateName n).isSome
        | none => false) then .error "VALIDATION_ERROR"
    else if (match updates.name with
        | some n => !isNameUnique n (st.categories.filter (fun cat => cat.id != id))
        | none => false) then .error "DUPLICATE_CATEGORY_NAME"
    else if (match updates.color with
        | some c => (validateColor c).isSome
        | none => false) then .error "VALIDATION_ERROR"
    else
      let updatedCategory : Category :=
        { id := currentCategory.id
          name := updates.name.getD currentCategory.name
          color := updates.color.getD currentCategory.color
          todoCount := currentCategory.todoCount }
      .ok (true,
        { st with categories := replaceFirstCategory st.categories id updatedCategory })

/-- TodoManager.deleteCategory: resolve the category's todos first (move them
through updateTodo when a truthy target is supplied, delete them otherwise),
then remove the category itself. -/
def deleteCategory (st : ManagerState) (id : String) (moveTosCategoryId : Option String)
    (now : Date) : Except String (Bool × ManagerState) :=
  if !st.isInitialized then .error "NOT_INITIALIZED"
  else match findCategory st.categories id with
  | none => .error "CATEGORY_NOT_FOUND"
  | some _ =>
    let todosInCategory := getTodosByCategoryOf st.todos id
    let deleteAll : Except String ManagerState :=
      todosInCategory.foldlM (fun s todo => (deleteTodo s todo.id).map (fun r => r.2)) st
    let resolved : Except String ManagerState :=
      if todosInCategory.length > 0 then
        match moveTosCategoryId with
        | some m =>
          if m != "" then
            if !categoryExistsIn st.categories m then .error "CATEGORY_NOT_FOUND"
            else
              todosInCategory.foldlM (fun s todo =>
                (updateTodo s todo.id { categoryId := some m } now).map (fun r => r.2)) st
          else deleteAll
        | none => deleteAll
      else .ok st
    match resolved with
    | .error e => .error e
    | .ok st2 => .ok (true, { st2 with categories := removeFirstCategory st2.categories id })

/-- TodoManager.createDefaultCategories: each `addCategory` failure is caught
and logged, leaving the state unchanged for that entry. -/
def createDefaultCategoriesRun (st : ManagerState) : ManagerState :=
  DEFAULT_CATEGORIES.foldl (fun s categoryInput =>
    match addCategory s categoryInput with
    | .ok r => r.2
    | .error _ => s) st

/-- TodoManager.initialize, after the persistence load has produced the two
loaded record sets: optionally create the default categories, recompute all
counts, and only then set `isInitialized`. -/
def tmInitialize (config : TodoManagerConfig) (loadedTodos : List Todo)
    (loadedCategories : List Category) : ManagerState :=
  let st0 : ManagerState :=
    { todos := loadedTodos
      categories := loadedCategories
      isInitialized := false
      nextId := 0 }
  let st1 :=
    if st0.categories.length = 0 && config.createDefaultCategories then
      createDefaultCategoriesRun st0
    else st0
  let st2 := { st1 with categories := updateCategoryTodoCounts st1.todos st1.categories }
  { st2 with isInitialized := true }

/-- A `FileManagerError`: a machine-readable code, the human message, and the
optional wrapped `originalError`.  Errors raised by the JS runtime itself
(JSON.parse failures, plain `Error`s from validateData, fs failures) are
modelled with code `"Error"`. -/
inductive FMError where
  | mk (code : String) (msg : String) (cause : Option FMError)

/-- The machine-readable code of an error. -/
def FMError.code : FMError → String
  | .mk c _ _ => c

/-- The human-readable message of an error. -/
def FMError.msg : FMError → String
  | .mk _ m _ => m

/-- The wrapped `originalError`, when any. -/
def FMError.cause : FMError → Option FMError
  | .mk _ _ g => g

/-- The FileManager configuration (paths are abstract strings; `backupPath`
is optional, and `maxBackups` is optional with `0` falsy like in JS). -/
structure FileManagerConfig where
  dataPath : String
  backupPath : Option String
  autoBackup : Bool
  maxBackups : Option Nat
deriving DecidableEq, Repr

/-- Backup filename filter of loadFromBackup and cleanupOldBackups:
`file.startsWith('todos-backup-') && file.endsWith('.json')`. -/
def isBackupFileName (file : String) : Bool :=
  startsWithJs file "todos-backup-" && endsWithJs file ".json"

/-- JS `Array.prototype.sort()` on strings: a stable sort by the default
lexicographic string comparison, modelled by insertion sort. -/
def sortStrings (l : List String) : List String :=
  l.insertionSort (fun a b => a.data ≤ b.data)

/-- The envelope content as the coordinator hands it to the persistence
layer. -/
structure TodoDataSets where
  todos : List Todo
  categories : List Category
deriving DecidableEq, Repr

/-- FileManager.loadFromBackup.  The backup directory is a listing of
`(filename, content)` entries; `decode` abstracts the composition of
`JSON.parse` with the date reviver and `validateData` (everything the `try`
block can throw from).  The body's failures — including the `NO_BACKUPS`
throw — are wrapped into a `BACKUP_LOAD_ERROR`; only the `NO_BACKUP_PATH`
throw happens before the `try` and escapes unwrapped. -/
def loadFromBackup (config : FileManagerConfig)
    (backupEntries : List (String × String))
    (decode : String → Except FMError TodoDataSets) : Except FMError TodoDataSets :=
  match config.backupPath with
  | none => .error (.mk "NO_BACKUP_PATH" "No backup path configured" none)
  | some _ =>
    let attempt : Except FMError TodoDataSets :=
      let todoBackups :=
        ((sortStrings ((backupEntries.map (fun e => e.1)).filter isBackupFileName))).reverse
      match todoBackups with
      | [] => .error (.mk "NO_BACKUPS" "No backup files found" none)
      | latest :: _ =>
        match backupEntries.find? (fun e => e.1 == latest) with
        | none => .error (.mk "Error" "read failed" none)
        | some e => decode e.2
    match attempt with
    | .ok d => .ok d
    | .error err =>
      .error (.mk "BACKUP_LOAD_ERROR" ("Failed to load from backup: " ++ err.msg) (some err))

/-- FileManager.load.  `dataFile` is the current content of the data file
(`none` = the file does not exist); a missing or blank file yields the empty
record sets; on any decode failure a `LOAD_ERROR` wrapping the failure is
built, but when `autoBackup` is on the result of `loadFromBackup` is returned
instead of it (whatever that result is). -/
def load (config : FileManagerConfig) (dataFile : Option String)
    (backupEntries : List (String × String))
    (decode : String → Except FMError TodoDataSets) : Except FMError TodoDataSets :=
  let attempt : Except FMError TodoDataSets :=
    match dataFile with
    | none => .ok { todos := [], categories := [] }
    | some fileContent =>
      if trimJs fileContent = "" then .ok { todos := [], categories := [] }
      else decode fileContent
  match attempt with
  | .ok d => .ok d
  | .error err =>
    let fileError : FMError :=
      .mk "LOAD_ERROR" ("Failed to load data: " ++ err.msg) (some err)
    if config.autoBackup then loadFromBackup config backupEntries decode
    else .error fileError

/-- FileManager.cleanupOldBackups on a directory listing: sort the matching
backup names, keep the `maxBackups` most recent, unlink the older rest
(non-matching files are untouched). -/
def cleanupOldBackups (maxBackups : Nat) (files : List String) : List String :=
  let todoBackups := (sortStrings (files.filter isBackupFileName)).reverse
  if todoBackups.length > maxBackups then
    let filesToDelete := todoBackups.drop maxBackups
    files.filter (fun f => !filesToDelete.contains f)
  else files

/-- One FileManager.createBackup step on the backup-directory listing:
`fs.copyFile` creates (or overwrites) the timestamped backup name, then
cleanup runs when `maxBackups` is configured and truthy (nonzero). -/
def createBackupStep (maxBackups : Option Nat) (files : List String)
    (newName : String) : List String :=
  let files' := if files.contains newName then files else files ++ [newName]
  match maxBackups with
  | some m => if m ≠ 0 then cleanupOldBackups m files' else files'
  | none => files'

/-- A filesystem for the atomic-save model: an association list from paths to
full file contents. -/
abbrev FileSys := List (String × String)

/-- The content at a path, if the file exists. -/
def FileSys.read (fs : FileSys) (path : String) : Option String :=
  (fs.find? (fun e => e.1 == path)).map (fun e => e.2)

/-- Writing (creating or fully replacing) a file. -/
def FileSys.write (fs : FileSys) (path content : String) : FileSys :=
  (path, content) :: fs.filter (fun e => e.1 != path)

/-- Removing a file. -/
def FileSys.unlink (fs : FileSys) (path : String) : FileSys :=
  fs.filter (fun e => e.1 != path)

/-- The primitive filesystem operations FileManager.save performs: writes
(also used for the backup copy), unlinks (backup rotation), and the final
atomic rename. -/
inductive FsOp where
  | write (path content : String)
  | unlink (path : String)
  | rename (src dst : String)
deriving DecidableEq, Repr

/-- Effect of one completed operation.  `rename` atomically moves the source
content over the destination (a no-op if the source does not exist). -/
def applyOp (fs : FileSys) : FsOp → FileSys
  | .write path content => fs.write path content
  | .unlink path => fs.unlink path
  | .rename src dst =>
    match fs.read src with
    | none => fs
    | some content => (fs.unlink src).write dst content

/-- The temp path used by save: `` `${dataPath}.tmp` ``. -/
def tmpPath (dataPath : String) : String := dataPath ++ ".tmp"

/-- The operation sequence of FileManager.save after serialization:
best-effort backup activity (copy + rotation, all inside the backup
directory), then the write of the serialized envelope to the temp path, then
the atomic rename of the temp file over the data file. -/
def saveOps (dataPath : String) (backupOps : List FsOp) (jsonData : String) : List FsOp :=
  backupOps ++ [.write (tmpPath dataPath) jsonData, .rename (tmpPath dataPath) dataPath]

/-- The filesystems observable while a sequence of operations runs, allowing
the run to stop at any point: before any remaining operation, in the middle
of an interrupted `write` (the file then holds an arbitrary partial string),
or after completing the next operation.  `rename` and `unlink` are atomic. -/
inductive MidRun : FileSys → List FsOp → FileSys → Prop
  | here (fs : FileSys) (ops : List FsOp) : MidRun fs ops fs
  | interruptedWrite (fs : FileSys) (path content partContent : String) (rest : List FsOp) :
      MidRun fs (.write path content :: rest) (fs.write path partContent)
  | step (fs : FileSys) (op : FsOp) (rest : List FsOp) (fs' : FileSys) :
      MidRun (applyOp fs op) rest fs' → MidRun fs (op :: rest) fs'

/-- Abstract injective model of `Date.prototype.toISOString`. -/
def toISOString (d : Date) : String := "iso:" ++ toString d

/-- Abstract model of `new Date(isoString)`, the inverse of `toISOString`. -/
def parseISODate (s : String) : Date := ((s.drop 4).toNat?).getD 0

/-- The string form of a `Priority` value (the TS enum is string-valued). -/
def priorityString : Priority → String
  | .low => "low"
  | .medium => "medium"
  | .high => "high"

/-- Runtime JavaScript values as they occur in the persistence layer: JSON
scalars plus `undefined`, `Date` objects, arrays and plain objects. -/
inductive JsVal where
  | vnull
  | vundef
  | vbool (b : Bool)
  | vnum (n : Nat)
  | vstr (s : String)
  | vdate (d : Date)
  | varr (xs : List JsVal)
  | vobj (fields : List (String × JsVal))

/-- Pure JSON trees, the result of `JSON.stringify` (text formatting aside)
and the input of `JSON.parse`. -/
inductive Json where
  | jnull
  | jbool (b : Bool)
  | jnum (n : Nat)
  | jstr (s : String)
  | jarr (xs : List Json)
  | jobj (fields : List (String × Json))

/-- Looking a key up in a JSON object. -/
def Json.getField (j : Json) (key : String) : Option Json :=
  match j with
  | .jobj fields => (fields.find? (fun f => f.1 == key)).map (fun f => f.2)
  | _ => none

/-- Step 2 of ECMA-262 SerializeJSONProperty: if the value has a callable
`toJSON` it is invoked first.  Of the values in this model only `Date`s have
one, and `Date.prototype.toJSON` returns the ISO string. -/
def toJSONStep : JsVal → JsVal
  | .vdate d => .vstr (toISOString d)
  | v => v

/-- FileManager.dateSerializer, the replacer passed to `JSON.stringify`:
a value that is a `Date` instance becomes the tagged `{ __date: iso }`
wrapper, anything else passes through. -/
def dateSerializer (v : JsVal) : JsVal :=
  match v with
  | .vdate d => .vobj [("__date", .vstr (toISOString d))]
  | _ => v

/-- ECMA-262 SerializeJSONProperty with a replacer, fuel-indexed for the
nested recursion: per node, `toJSON` is applied first, then the replacer, and
only then is the result serialized structurally.  `undefined` results are
dropped from objects and become `null` inside arrays; `none` overall means
the value is dropped (or the fuel ran out, which adequate fuel prevents). -/
def serializeWith (replacer : JsVal → JsVal) : Nat → JsVal → Option Json
  | 0, _ => none
  | fuel + 1, v =>
    match replacer (toJSONStep v) with
    | .vundef => none
    | .vnull => some .jnull
    | .vbool b => some (.jbool b)
    | .vnum n => some (.jnum n)
    | .vstr s => some (.jstr s)
    | .vdate _ => none
    | .varr xs =>
      some (.jarr (xs.map (fun x => (serializeWith replacer fuel x).getD .jnull)))
    | .vobj fields =>
      some (.jobj (fields.filterMap (fun f =>
        (serializeWith replacer fuel f.2).map (fun j => (f.1, j)))))

/-- FileManager.dateDeserializer, the reviver passed to `JSON.parse`: an
object carrying a `__date` key is turned back into a `Date` built from that
key's (string) value; everything else passes through. -/
def dateDeserializer (v : JsVal) : JsVal :=
  match v with
  | .vobj fields =>
    match (fields.find? (fun f => f.1 == "__date")).map (fun f => f.2) with
    | some (JsVal.vstr s) => .vdate (parseISODate s)
    | _ => v
  | _ => v

/-- `JSON.parse(text, reviver)` on an already-parsed JSON tree: the reviver is
applied bottom-up to every node, fuel-indexed for the nested recursion. -/
def parseReviveWith (reviver : JsVal → JsVal) : Nat → Json → JsVal
  | 0, _ => .vundef
  | fuel + 1, j =>
    match j with
    | .jnull => reviver .vnull
    | .jbool b => reviver (.vbool b)
    | .jnum n => reviver (.vnum n)
    | .jstr s => reviver (.vstr s)
    | .jarr xs => reviver (.varr (xs.map (parseReviveWith reviver fuel)))
    | .jobj fields =>
      reviver (.vobj (fields.map (fun f => (f.1, parseReviveWith reviver fuel f.2))))

/-- The JS value for a `Todo` as the coordinator holds it in memory (absent
optional fields are the explicit `undefined` that `createTodo` assigns). -/
def todoToJsVal (t : Todo) : JsVal :=
  .vobj [("id", .vstr t.id),
         ("title", .vstr t.title),
         ("description", match t.description with | some d => .vstr d | none => .vundef),
         ("completed", .vbool t.completed),
         ("priority", .vstr (priorityString t.priority)),
         ("categoryId", .vstr t.categoryId),
         ("createdAt", .vdate t.createdAt),
         ("completedAt", match t.completedAt with | some d => .vdate d | none => .vundef),
         ("dueDate", match t.dueDate with | some d => .vdate d | none => .vundef)]

/-- The JS value for a `Category`. -/
def categoryToJsVal (c : Category) : JsVal :=
  .vobj [("id", .vstr c.id),
         ("name", .vstr c.name),
         ("color", .vstr c.color),
         ("todoCount", .vnum c.todoCount)]

/-- The envelope save builds: the record sets spread into an object together
with the fixed version tag and a fresh `lastModified` ISO string. -/
def envelopeJsVal (data : TodoDataSets) (now : Date) : JsVal :=
  .vobj [("todos", .varr (data.todos.map todoToJsVal)),
         ("categories", .varr (data.categories.map categoryToJsVal)),
         ("version", .vstr "1.0.0"),
         ("lastModified", .vstr (toISOString now))]

/-- The JSON tree save writes to disk:
`JSON.stringify(todoData, this.dateSerializer, 2)` (the indent affects only
the text layout, not the tree). -/
def saveSerializedTree (fuel : Nat) (data : TodoDataSets) (now : Date) : Option Json :=
  serializeWith dateSerializer fuel (envelopeJsVal data now)

/-- JS truthiness of the modelled values (objects, arrays and `Date`s are
always truthy). -/
def jsTruthy : JsVal → Bool
  | .vnull => false
  | .vundef => false
  | .vbool b => b
  | .vnum n => n != 0
  | .vstr s => s != ""
  | .vdate _ => true
  | .varr _ => true
  | .vobj _ => true

/-- `typeof v === 'string'`. -/
def isStrVal : JsVal → Bool
  | .vstr _ => true
  | _ => false

/-- `typeof v === 'boolean'`. -/
def isBoolVal : JsVal → Bool
  | .vbool _ => true
  | _ => false

/-- `typeof v === 'number'`. -/
def isNumVal : JsVal → Bool
  | .vnum _ => true
  | _ => false

/-- `v instanceof Date`. -/
def isDateVal : JsVal → Bool
  | .vdate _ => true
  | _ => false

/-- `typeof v === 'object'` (arrays and `Date`s are objects; `null` is too,
but the validators always guard with truthiness first). -/
def isObjectTyped : JsVal → Bool
  | .vobj _ => true
  | .varr _ => true
  | .vdate _ => true
  | .vnull => true
  | _ => false

/-- Property access `v[key]`, `undefined` when absent or not an object. -/
def JsVal.getProp (v : JsVal) (key : String) : JsVal :=
  match v with
  | .vobj fields => (((fields.find? (fun f => f.1 == key)).map (fun f => f.2))).getD .vundef
  | _ => JsVal.vundef -- non-object values have no properties

/-- FileManager.validateTodo, on the raw parsed value. -/
def validateTodoJs (todo : JsVal) : Except String Unit :=
  if !jsTruthy todo || !isObjectTyped todo then .error "Todo must be an object"
  else if !jsTruthy (todo.getProp "id") || !isStrVal (todo.getProp "id") then
    .error "Todo must have a valid id"
  else if !jsTruthy (todo.getProp "title") || !isStrVal (todo.getProp "title") then
    .error "Todo must have a valid title"
  else if !isBoolVal (todo.getProp "completed") then
    .error "Todo completed status must be a boolean"
  else if !jsTruthy (todo.getProp "priority") || !isStrVal (todo.getProp "priority") then
    .error "Todo must have a valid priority"
  else if !jsTruthy (todo.getProp "categoryId") || !isStrVal (todo.getProp "categoryId") then
    .error "Todo must have a valid categoryId"
  else if !jsTruthy (todo.getProp "createdAt") || !isDateVal (todo.getProp "createdAt") then
    .error "Todo must have a valid createdAt date"
  else .ok ()

/-- FileManager.validateCategory, on the raw parsed value. -/
def validateCategoryJs (category : JsVal) : Except String Unit :=
  if !jsTruthy category || !isObjectTyped category then .error "Category must be an object"
  else if !jsTruthy (category.getProp "id") || !isStrVal (category.getProp "id") then
    .error "Category must have a valid id"
  else if !jsTruthy (category.getProp "name") || !isStrVal (category.getProp "name") then
    .error "Category must have a valid name"
  else if !jsTruthy (category.getProp "color") || !isStrVal (category.getProp "color") then
    .error "Category must have a valid color"
  else if !isNumVal (category.getProp "todoCount") then
    .error "Category todoCount must be a number"
  else .ok ()

/-- Indexed traversal of the per-record validation, producing the
`Invalid ... at index i` wrapper message of validateData. -/
def validateEachJs (what : String) (check : JsVal → Except String Unit) :
    Nat → List JsVal → Except String Unit
  | _, [] => .ok ()
  | i, v :: rest =>
    match check v with
    | .error e =>
      .error ("Invalid " ++ what ++ " at index " ++ toString i ++ ": " ++ e)
    | .ok () => validateEachJs what check (i + 1) rest

/-- FileManager.validateData on the raw parsed value: object-ness, array-ness
of both collections, the version marker, and per-record validation (the
referential-integrity pass only warns and is omitted). -/
def validateDataJs (data : JsVal) : Except String Unit :=
  if !jsTruthy data || !isObjectTyped data then .error "Data must be an object"
  else
    match data.getProp "todos", data.getProp "categories" with
    | .varr todos, .varr categories =>
      if !jsTruthy (data.getProp "version") || !isStrVal (data.getProp "version") then
        .error "version must be a string"
      else
        match validateEachJs "todo" validateTodoJs 0 todos with
        | .error e => .error e
        | .ok () => validateEachJs "category" validateCategoryJs 0 categories
    | .varr _, _ => .error "categories must be an array"
    | _, _ => .error "todos must be an array"

/-- The load-side pipeline on a parsed data-file tree: revive with the date
deserializer, then run the structural validation, returning the revived value
that load would hand on. -/
def decodeSavedTree (fuel : Nat) (j : Json) : Except String JsVal :=
  let revived := parseReviveWith dateDeserializer fuel j
  match validateDataJs revived with
  | .error e => .error e
  | .ok () => .ok revived

/-- Decidable equality for `Except` results, used to state concrete runs. -/
instance {ε α : Type} [DecidableEq ε] [DecidableEq α] : DecidableEq (Except ε α) :=
  fun a b =>
    match a, b with
    | .ok x, .ok y =>
      if h : x = y then isTrue (by rw [h]) else isFalse (fun hh => h (by cases hh; rfl))
    | .ok _, .error _ => isFalse (fun hh => Except.noConfusion hh)
    | .error _, .ok _ => isFalse (fun hh => Except.noConfusion hh)
    | .error e, .error f =>
      if h : e = f then isTrue (by rw [h]) else isFalse (fun hh => h (by cases hh; rfl))

/-- C1: the claim fails on the code.  With no existing data file (both loaded
record sets empty) and default-category creation enabled, initialization
completes with `getStatistics().totalTodos = 0` as claimed — but with an
EMPTY category set instead of the four starter categories: `isInitialized`
is set only after `createDefaultCategories` runs, so every starter
`addCategory` call throws `NOT_INITIALIZED` (last conjunct) and is swallowed
by the per-category catch. -/
theorem C1_no_default_categories_created :
    (tmInitialize { autoSave := true, createDefaultCategories := true } [] []).categories
        = [] ∧
    (tmInitialize { autoSave := true, createDefaultCategories := true } [] []).isInitialized
        = true ∧
    getStatistics (tmInitialize { autoSave := true, createDefaultCategories := true } [] []) 0
        = .ok { totalTodos := 0, completedTodos := 0, pendingTodos := 0, overdueTodos := 0,
                totalCategories := 0, highCount := 0, mediumCount := 0, lowCount := 0 } ∧
    addCategory { todos := [], categories := [], isInitialized := false, nextId := 0 }
        { name := "Personal", color := "#3498db" } = .error "NOT_INITIALIZED" :=
  ⟨rfl, rfl, rfl, rfl⟩

/-- A concrete record set for exercising the save/load pipeline: one todo
with a creation date, a due date and all field kinds populated, and its
category. -/
def c2Todo : Todo :=
  { id := "t1", title := "Buy milk", description := some "at the store", completed := false,
    priority := .high, categoryId := "c1", createdAt := 1000, completedAt := none,
    dueDate := some 2000 }

/-- The category of `c2Todo`. -/
def c2Category : Category :=
  { id := "c1", name := "Personal", color := "#3498db", todoCount := 1 }

/-- The record sets holding `c2Todo` and `c2Category`. -/
def c2Data : TodoDataSets := { todos := [c2Todo], categories := [c2Category] }

/-- The JSON tree save writes for `c2Data`. -/
def c2SavedTree : Option Json := saveSerializedTree 20 c2Data 3000

/-- C2: the claim fails on the code.  First conjunct: per ECMA-262,
`Date.prototype.toJSON` runs before the replacer, so `dateSerializer` is the
identity on every value it is actually handed — the tagged `__date` wrapper
is never produced.  Second conjunct: the file save writes therefore carries
`createdAt`/`dueDate` as plain ISO strings (and drops the undefined
`completedAt`).  Third conjunct: a plain string is not the tagged wrapper.
Fourth conjunct: reading that file back fails structural validation
(`createdAt` is not a `Date` instance after reviving), so save followed by
load does not return the original record sets — it does not return record
sets at all. -/
theorem C2_save_load_roundtrip_broken :
    (∀ v : JsVal, dateSerializer (toJSONStep v) = toJSONStep v) ∧
    c2SavedTree = some (Json.jobj
      [("todos", Json.jarr
          [Json.jobj
             [("id", Json.jstr "t1"),
              ("title", Json.jstr "Buy milk"),
              ("description", Json.jstr "at the store"),
              ("completed", Json.jbool false),
              ("priority", Json.jstr "high"),
              ("categoryId", Json.jstr "c1"),
              ("createdAt", Json.jstr (toISOString 1000)),
              ("dueDate", Json.jstr (toISOString 2000))]]),
       ("categories", Json.jarr
          [Json.jobj
             [("id", Json.jstr "c1"),
              ("name", Json.jstr "Personal"),
              ("color", Json.jstr "#3498db"),
              ("todoCount", Json.jnum 1)]]),
       ("version", Json.jstr "1.0.0"),
       ("lastModified", Json.jstr (toISOString 3000))]) ∧
    Json.jstr (toISOString 1000) ≠ Json.jobj [("__date", Json.jstr (toISOString 1000))] ∧
    c2SavedTree.map (decodeSavedTree 20) =
      some (.error "Invalid todo at index 0: Todo must have a valid createdAt date") := by
  refine ⟨fun v => ?_, rfl, fun h => Json.noConfusion h, rfl⟩
  cases v <;> rfl

/-- JS `s.includes(sub)` holds exactly when `sub` is a contiguous substring
(infix) of `s`. -/
theorem strIncludes_iff (s sub : String) :
    strIncludes s sub = true ↔ sub.data <:+: s.data := by
  rw [strIncludes]
  induction s.data with
  | nil => simp [listContainsSub, List.isEmpty_iff, List.infix_nil]
  | cons c t ih =>
    rw [listContainsSub, Bool.or_eq_true, List.isPrefixOf_iff_prefix, ih,
      List.infix_cons_iff]

/-- The todo of the C4 counterexample: title `"Work"`, no description. -/
def c4Todo : Todo :=
  { id := "t1", title := "Work", description := none, completed := false,
    priority := .high, categoryId := "c1", createdAt := 0, completedAt := none,
    dueDate := none }

/-- An initialized coordinator state holding only `c4Todo`. -/
def c4State : ManagerState :=
  { todos := [c4Todo],
    categories := [{ id := "c1", name := "General", color := "#ffffff", todoCount := 1 }],
    isInitialized := true,
    nextId := 0 }

/-- C4 counterexample: searching for `"work"` returns the todo titled
`"Work"`, although neither its title nor its (absent) description contains
`"work"` as a case-sensitive substring — so the search is not the claimed
case-sensitive one. -/
theorem C4_counterexample_search_not_case_sensitive :
    searchTodos c4State "work" = .ok [c4Todo] ∧
    strIncludes c4Todo.title "work" = false ∧
    ¬ ("work".data <:+: c4Todo.title.data) ∧
    c4Todo.description = none :=
  ⟨by decide, by decide, by decide, rfl⟩

/-- C4 amended: for every query and every initialized coordinator state,
`searchTodos` returns exactly the todos whose lowercased title contains the
lowercased query as a substring, or whose description is present, non-empty,
and likewise contains the lowercased query — i.e. a case-INsensitive
substring search over title/description. -/
theorem C4_search_is_case_insensitive (st : ManagerState) (q : String)
    (h : st.isInitialized = true) :
    ∃ r, searchTodos st q = .ok r ∧
      ∀ t, t ∈ r ↔ t ∈ st.todos ∧
        ((toLowerCase q).data <:+: (toLowerCase t.title).data ∨
         ∃ d, t.description = some d ∧ d ≠ "" ∧ (toLowerCase q).data <:+: (toLowerCase d).data) := by
  refine ⟨st.todos.filter (fun todo =>
      strIncludes (toLowerCase todo.title) (toLowerCase q) ||
      (match todo.description with
       | some d => d != "" && strIncludes (toLowerCase d) (toLowerCase q)
       | none => false)), ?_, ?_⟩
  · rw [searchTodos, h]
    rfl
  · intro t
    rw [List.mem_filter]
    refine and_congr_right fun _ => ?_
    rw [Bool.or_eq_true, strIncludes_iff]
    refine or_congr Iff.rfl ?_
    cases t.description with
    | none => simp
    | some d => simp [Bool.and_eq_true, bne_iff_ne, strIncludes_iff]

/-- Instantiation of the amended C4 theorem at the counterexample state. -/
theorem C4_search_is_case_insensitive_witness :
    ∃ r, searchTodos c4State "work" = .ok r ∧
      ∀ t, t ∈ r ↔ t ∈ c4State.todos ∧
        ((toLowerCase "work").data <:+: (toLowerCase t.title).data ∨
         ∃ d, t.description = some d ∧ d ≠ "" ∧ (toLowerCase "work").data <:+: (toLowerCase d).data) :=
  C4_search_is_case_insensitive c4State "work" rfl

/-- C10: deleting a category that contains no todos succeeds and removes the
category for EVERY reassignment target — including one referencing no
existing category — because the target-existence check runs only inside the
branch taken when the category still has todos. -/
theorem C10_delete_empty_category_ignores_target (st : ManagerState) (id : String)
    (reassignToId : Option String) (now : Date) (cur : Category)
    (hinit : st.isInitialized = true)
    (hfind : findCategory st.categories id = some cur)
    (hempty : getTodosByCategoryOf st.todos id = []) :
    deleteCategory st id reassignToId now =
      .ok (true, { st with categories := removeFirstCategory st.categories id }) := by
  simp [deleteCategory, hinit, hfind, hempty]

/-- An initialized state with one empty category, for the C10 witness. -/
def c10State : ManagerState :=
  { todos := [],
    categories := [{ id := "c1", name := "General", color := "#ffffff", todoCount := 0 }],
    isInitialized := true,
    nextId := 0 }

/-- Instantiation of C10 with a dangling reassignment target `"ghost"`. -/
theorem C10_delete_empty_category_ignores_target_witness :
    deleteCategory c10State "c1" (some "ghost") 0 =
      .ok (true, { c10State with categories := removeFirstCategory c10State.categories "c1" }) :=
  C10_delete_empty_category_ignores_target c10State "c1" (some "ghost") 0
    { id := "c1", name := "General", color := "#ffffff", todoCount := 0 }
    rfl (by decide) (by decide)

/-- An initialized state with categories `"Work"` and `"Personal"`, for C8. -/
def c8State : ManagerState :=
  { todos := [],
    categories := [{ id := "c1", name := "Work", color := "#2ecc71", todoCount := 0 },
                   { id := "c2", name := "Personal", color := "#3498db", todoCount := 0 }],
    isInitialized := true,
    nextId := 0 }

/-- C8: for inputs passing the field validators, `addCategory` fails with the
duplicate-name error (code `DUPLICATE_CATEGORY_NAME`, the spec's
`DUPLICATE_NAME`) exactly when an existing category has the same name
case-insensitively; a duplicate-name failure of `updateCategory` always
points at a category OTHER than the one being updated (the check excludes
it); concretely, adding `"work"` next to `"Work"` fails, and renaming the
`"Work"` category to `"WORK"` succeeds. -/
theorem C8_duplicate_name_case_insensitive_and_self_excluded :
    (∀ st input, st.isInitialized = true → validateCategoryInput input = [] →
      (addCategory st input = .error "DUPLICATE_CATEGORY_NAME" ↔
        ∃ c ∈ st.categories, toLowerCase c.name = toLowerCase input.name)) ∧
    (∀ st id u n, u.name = some n →
      updateCategory st id u = .error "DUPLICATE_CATEGORY_NAME" →
      ∃ c ∈ st.categories, c.id ≠ id ∧ toLowerCase c.name = toLowerCase n) ∧
    addCategory c8State { name := "work", color := "#ffffff" } =
      .error "DUPLICATE_CATEGORY_NAME" ∧
    updateCategory c8State "c1" { name := some "WORK" } =
      .ok (true, { c8State with categories :=
        [{ id := "c1", name := "WORK", color := "#2ecc71", todoCount := 0 },
         { id := "c2", name := "Personal", color := "#3498db", todoCount := 0 }] }) := by
  refine ⟨?_, ?_, by decide, by decide⟩
  · intro st input hinit hvalid
    by_cases hu : isNameUnique input.name st.categories
    · simp only [addCategory, hinit, Bool.not_true, Bool.false_eq_true, if_false, hvalid,
        ne_eq, not_true_eq_false, if_neg, hu, reduceIte]
      simp only [isNameUnique, Bool.not_eq_true', List.any_eq_false, beq_iff_eq] at hu
      constructor
      · intro h
        exact absurd h (by simp)
      · rintro ⟨c, hc, he⟩
        exact absurd he (hu c hc)
    · simp only [addCategory, hinit, Bool.not_true, Bool.false_eq_true, if_false, hvalid,
        ne_eq, not_true_eq_false, if_neg, hu, reduceIte]
      simp only [isNameUnique, Bool.not_eq_true', List.any_eq_false, beq_iff_eq] at hu
      constructor
      · intro _
        push_neg at hu
        obtain ⟨c, hc, he⟩ := hu
        exact ⟨c, hc, he⟩
      · intro _
        rfl
  · intro st id u n hn hdup
    rw [updateCategory] at hdup
    by_cases hinit : st.isInitialized
    · rw [hinit] at hdup
      simp only [Bool.not_true, Bool.false_eq_true, if_false] at hdup
      cases hfind : findCategory st.categories id with
      | none =>
        rw [hfind] at hdup
        dsimp only at hdup
        exact absurd hdup (by decide)
      | some cur =>
        rw [hfind, hn] at hdup
        dsimp only at hdup
        by_cases hv : (validateName n).isSome
        · rw [if_pos hv] at hdup
          exact absurd hdup (by decide)
        · rw [if_neg hv] at hdup
          by_cases hq : !isNameUnique n (st.categories.filter fun cat => cat.id != id)
          · simp only [isNameUnique, Bool.not_not, List.any_eq_true, beq_iff_eq] at hq
            obtain ⟨c, hc, he⟩ := hq
            rw [List.mem_filter] at hc
            exact ⟨c, hc.1, by simpa using hc.2, he⟩
          · rw [if_neg hq] at hdup
            by_cases hcol : (match u.color with
                | some c => (validateColor c).isSome
                | none => false)
            · rw [if_pos hcol] at hdup
              exact absurd hdup (by decide)
            · rw [if_neg hcol] at hdup
              simp at hdup
    · simp only [Bool.not_eq_true] at hinit
      rw [hinit] at hdup
      simp at hdup

/-- Instantiation of the C8 duplicate-check characterization: adding a
category named `"work"` next to the existing `"Work"` is exactly a
case-insensitive duplicate. -/
theorem C8_duplicate_name_case_insensitive_and_self_excluded_witness :
    addCategory c8State { name := "work", color := "#ffffff" } =
        .error "DUPLICATE_CATEGORY_NAME" ↔
      ∃ c ∈ c8State.categories, toLowerCase c.name = toLowerCase "work" :=
  C8_duplicate_name_case_insensitive_and_self_excluded.1 c8State
    { name := "work", color := "#ffffff" } rfl rfl

/-- Totality of the JS string comparison used by `Array.prototype.sort`. -/
instance : IsTotal String (fun a b => a.data ≤ b.data) :=
  ⟨fun a b => le_total a.data b.data⟩

/-- Transitivity of the JS string comparison used by `Array.prototype.sort`. -/
instance : IsTrans String (fun a b => a.data ≤ b.data) :=
  ⟨fun _ _ _ hab hbc => le_trans hab hbc⟩

/-- The head of the descending sort is the maximum of the list. -/
theorem sortStrings_reverse_head (l : List String) (m : String)
    (hm : m ∈ l) (hmax : ∀ n ∈ l, n.data ≤ m.data) :
    ∃ rest, (sortStrings l).reverse = m :: rest := by
  have hperm := List.perm_insertionSort (fun a b : String => a.data ≤ b.data) l
  have hsorted := List.sorted_insertionSort (fun a b : String => a.data ≤ b.data) l
  rw [sortStrings]
  set s := l.insertionSort (fun a b : String => a.data ≤ b.data) with hs
  have hms : m ∈ s.reverse := by
    rw [List.mem_reverse]
    exact hperm.mem_iff.mpr hm
  cases hrev : s.reverse with
  | nil => rw [hrev] at hms; cases hms
  | cons h t =>
    refine ⟨t, ?_⟩
    rw [hrev] at hms
    have hpw : List.Pairwise (fun a b : String => b.data ≤ a.data) (h :: t) := by
      rw [← hrev, List.pairwise_reverse]
      exact hsorted
    have hhl : h ∈ l := by
      have : h ∈ s.reverse := by rw [hrev]; exact List.mem_cons_self h t
      rw [List.mem_reverse] at this
      exact hperm.mem_iff.mp this
    rcases List.mem_cons.mp hms with hms | hms
    · rw [hms]
    · have h1 : m.data ≤ h.data := (List.pairwise_cons.mp hpw).1 m hms
      have h2 : h.data ≤ m.data := hmax h hhl
      have : h.data = m.data := le_antisymm h2 h1
      cases h with
      | mk hd =>
        cases m with
        | mk md => simp_all

/-- With pairwise-distinct filenames, `find?` by name retrieves exactly the
entry carrying that name. -/
theorem find_entry_of_nodup (entries : List (String × String)) (name content : String)
    (hnd : (entries.map Prod.fst).Nodup) (hmem : (name, content) ∈ entries) :
    entries.find? (fun e => e.1 == name) = some (name, content) := by
  induction entries with
  | nil => cases hmem
  | cons e rest ih =>
    rw [List.map_cons, List.nodup_cons] at hnd
    rcases List.mem_cons.mp hmem with he | hmem2
    · rw [← he]
      simp [List.find?]
    · have hne : e.1 ≠ name := by
        intro hcontra
        have : name ∈ rest.map Prod.fst := List.mem_map.mpr ⟨(name, content), hmem2, rfl⟩
        exact hnd.1 (hcontra ▸ this)
      rw [List.find?]
      have hbeq : (e.1 == name) = false := by simpa using hne
      rw [hbeq]
      exact ih hnd.2 hmem2

/-- A FileManager configuration with auto-backup on, for the C5 records. -/
def c5Config : FileManagerConfig :=
  { dataPath := "./data/todos.json", backupPath := some "./data/backups",
    autoBackup := true, maxBackups := some 5 }

/-- A decoder that always fails, modelling an unparseable primary file. -/
def c5BadDecode : String → Except FMError TodoDataSets :=
  fun _ => .error (.mk "Error" "Unexpected token c in JSON" none)

/-- C5 counterexample: with backups enabled but none present, a failing load
surfaces a `BACKUP_LOAD_ERROR` wrapping the recovery failure (`NO_BACKUPS`);
the claimed `LOAD` error carrying the original parse failure is nowhere in
the result — its code is not `LOAD_ERROR` and the original message
(`Unexpected token c in JSON`) does not occur in the error chain. -/
theorem C5_counterexample_backup_error_replaces_load_error :
    load c5Config (some "corrupt") [] c5BadDecode =
      .error (.mk "BACKUP_LOAD_ERROR" "Failed to load from backup: No backup files found"
        (some (.mk "NO_BACKUPS" "No backup files found" none))) ∧
    (FMError.mk "BACKUP_LOAD_ERROR" "Failed to load from backup: No backup files found"
        (some (.mk "NO_BACKUPS" "No backup files found" none))).code ≠ "LOAD_ERROR" :=
  ⟨rfl, by decide⟩

/-- C5 amended: on a decode failure of a non-blank data file, load returns the
backup-recovery result whenever auto-backup is on (and a `LOAD_ERROR`
wrapping the original failure only when it is off); recovery reads the
backup whose filename is largest in the matching set (most recent), returns
its decoded content on success, and otherwise fails with `NO_BACKUP_PATH`
(no backup directory configured), or a `BACKUP_LOAD_ERROR` wrapping
`NO_BACKUPS` (no matching backups), or a `BACKUP_LOAD_ERROR` wrapping the
recovery decode failure — never the original load failure. -/
theorem C5_recovery_error_flow :
    (∀ config dataContent entries decode e,
      decode dataContent = .error e → trimJs dataContent ≠ "" →
      ((config.autoBackup = true →
        load config (some dataContent) entries decode = loadFromBackup config entries decode) ∧
       (config.autoBackup = false →
        load config (some dataContent) entries decode =
          .error (.mk "LOAD_ERROR" ("Failed to load data: " ++ e.msg) (some e))))) ∧
    (∀ config entries decode, config.backupPath = none →
      loadFromBackup config entries decode =
        .error (.mk "NO_BACKUP_PATH" "No backup path configured" none)) ∧
    (∀ config entries decode bp, config.backupPath = some bp →
      (entries.map Prod.fst).filter isBackupFileName = [] →
      loadFromBackup config entries decode =
        .error (.mk "BACKUP_LOAD_ERROR" "Failed to load from backup: No backup files found"
          (some (.mk "NO_BACKUPS" "No backup files found" none)))) ∧
    (∀ config entries decode bp latest content,
      config.backupPath = some bp →
      (entries.map Prod.fst).Nodup →
      (latest, content) ∈ entries →
      isBackupFileName latest = true →
      (∀ n ∈ (entries.map Prod.fst).filter isBackupFileName, n.data ≤ latest.data) →
      ((∀ d, decode content = .ok d → loadFromBackup config entries decode = .ok d) ∧
       (∀ e2, decode content = .error e2 →
         loadFromBackup config entries decode =
           .error (.mk "BACKUP_LOAD_ERROR" ("Failed to load from backup: " ++ e2.msg)
             (some e2))))) := by
  refine ⟨?_, ?_, ?_, ?_⟩
  · intro config dataContent entries decode e herr htrim
    constructor
    · intro hab
      simp only [load, if_neg htrim, herr, hab, if_true]
    · intro hab
      simp only [load, if_neg htrim, herr, hab, Bool.false_eq_true, if_false]
  · intro config entries decode hnone
    rw [loadFromBackup, hnone]
  · intro config entries decode bp hbp hfilt
    rw [loadFromBackup, hbp]
    simp only [hfilt, sortStrings, List.insertionSort, List.reverse_nil]
    rfl
  · intro config entries decode bp latest content hbp hnd hmem hback hmax
    have hlmem : latest ∈ (entries.map Prod.fst).filter isBackupFileName := by
      rw [List.mem_filter]
      exact ⟨List.mem_map.mpr ⟨(latest, content), hmem, rfl⟩, hback⟩
    obtain ⟨rest, hrest⟩ := sortStrings_reverse_head
      ((entries.map Prod.fst).filter isBackupFileName) latest hlmem
      (fun n hn => hmax n hn)
    have hfind := find_entry_of_nodup entries latest content hnd hmem
    constructor
    · intro d hd
      rw [loadFromBackup, hbp]
      simp only [hrest, hfind, hd]
    · intro e2 he2
      rw [loadFromBackup, hbp]
      simp only [hrest, hfind, he2]

/-- A directory with two backup snapshots, the newer holding `"good"`. -/
def c5Entries : List (String × String) :=
  [("todos-backup-2024-01-01T00-00-00-000Z.json", "old"),
   ("todos-backup-2024-06-01T00-00-00-000Z.json", "good")]

/-- A decoder succeeding only on the newer backup's content. -/
def c5Decode : String → Except FMError TodoDataSets :=
  fun s => if s = "good" then .ok { todos := [], categories := [c2Category] }
           else .error (.mk "Error" "bad" none)

/-- Instantiation of the C5 recovery flow: the most recent of two backups is
selected and its content returned. -/
theorem C5_recovery_error_flow_witness :
    loadFromBackup c5Config c5Entries c5Decode =
      .ok { todos := [], categories := [c2Category] } :=
  (C5_recovery_error_flow.2.2.2 c5Config c5Entries c5Decode "./data/backups"
      "todos-backup-2024-06-01T00-00-00-000Z.json" "good"
      rfl (by decide) (by decide) (by decide) (by decide)).1
    { todos := [], categories := [c2Category] } rfl

/-- Looking a key up after filtering out another path is unchanged. -/
theorem find_filter_ne (fs : FileSys) (p q : String) (h : q ≠ p) :
    (fs.filter (fun e => e.1 != p)).find? (fun e => e.1 == q) =
      fs.find? (fun e => e.1 == q) := by
  induction fs with
  | nil => rfl
  | cons e rest ih =>
    by_cases hp : e.1 = p
    · have h1 : (e.1 != p) = false := by simp [hp]
      have h2 : (e.1 == q) = false := by
        rw [hp, beq_eq_false_iff_ne]
        exact fun hc => h hc.symm
      rw [List.filter_cons, h1]
      simp only [Bool.false_eq_true, if_false]
      rw [List.find?]
      rw [h2]
      exact ih
    · have h1 : (e.1 != p) = true := by simpa using hp
      rw [List.filter_cons, h1]
      simp only [if_true]
      rw [List.find?, List.find?]
      cases hq : e.1 == q with
      | true => rfl
      | false => exact ih

/-- Reading back a freshly written file yields the written content. -/
theorem read_write_self (fs : FileSys) (p c : String) :
    (fs.write p c).read p = some c := by
  simp [FileSys.read, FileSys.write, List.find?]

/-- Writing one path leaves every other path unchanged. -/
theorem read_write_other (fs : FileSys) (p c q : String) (h : q ≠ p) :
    (fs.write p c).read q = fs.read q := by
  rw [FileSys.read, FileSys.write, List.find?]
  have : (p == q) = false := by simp; exact fun hc => h hc.symm
  rw [this]
  rw [find_filter_ne fs p q h, FileSys.read]

/-- Unlinking one path leaves every other path unchanged. -/
theorem read_unlink_other (fs : FileSys) (p q : String) (h : q ≠ p) :
    (fs.unlink p).read q = fs.read q := by
  rw [FileSys.read, FileSys.unlink, find_filter_ne fs p q h, FileSys.read]

/-- The file paths an operation touches avoid `p`. -/
def opAvoidsPath : FsOp → String → Prop
  | .write path _, p => path ≠ p
  | .unlink path, p => path ≠ p
  | .rename src dst, p => src ≠ p ∧ dst ≠ p

instance : ∀ (op : FsOp) (p : String), Decidable (opAvoidsPath op p) := by
  intro op p
  cases op <;> dsimp [opAvoidsPath] <;> infer_instance

/-- A completed operation avoiding `p` does not change what `p` reads as. -/
theorem applyOp_preserves (fs : FileSys) (op : FsOp) (p : String)
    (h : opAvoidsPath op p) : (applyOp fs op).read p = fs.read p := by
  cases op with
  | write path content => exact read_write_other fs path content p (Ne.symm h)
  | unlink path => exact read_unlink_other fs path p (Ne.symm h)
  | rename src dst =>
    rw [applyOp]
    cases fs.read src with
    | none => rfl
    | some content =>
      rw [read_write_other _ dst content p (Ne.symm h.2),
        read_unlink_other fs src p (Ne.symm h.1)]

/-- No state observable during a run of operations all avoiding `p` changes
what `p` reads as — including states inside an interrupted write. -/
theorem midrun_preserves (p : String) :
    ∀ (ops : List FsOp) (fs fs' : FileSys), (∀ op ∈ ops, opAvoidsPath op p) →
      MidRun fs ops fs' → fs'.read p = fs.read p := by
  intro ops fs fs' havoid h
  induction h with
  | here fs ops => rfl
  | interruptedWrite fs path content partContent rest =>
    exact read_write_other fs path partContent p
      (Ne.symm (havoid _ (List.mem_cons_self _ _)))
  | step fs op rest fs' hrest ih =>
    rw [ih (fun o ho => havoid o (List.mem_cons_of_mem _ ho)),
      applyOp_preserves fs op p (havoid op (List.mem_cons_self _ _))]

/-- Running a whole operation list to completion. -/
def runOps (fs : FileSys) (ops : List FsOp) : FileSys := ops.foldl applyOp fs

/-- The completed run is one of the observable states. -/
theorem midrun_complete : ∀ (ops : List FsOp) (fs : FileSys), MidRun fs ops (runOps fs ops)
  | [], fs => MidRun.here fs []
  | op :: rest, fs => MidRun.step fs op rest _ (midrun_complete rest (applyOp fs op))

/-- A state observed during `xs ++ ys` is observed during `xs`, or during
`ys` started from the completed run of `xs`. -/
theorem midrun_append :
    ∀ (xs ys : List FsOp) (fs fs' : FileSys), MidRun fs (xs ++ ys) fs' →
      MidRun fs xs fs' ∨ MidRun (runOps fs xs) ys fs' := by
  intro xs
  induction xs with
  | nil => intro ys fs fs' h; right; exact h
  | cons x rest ih =>
    intro ys fs fs' h
    cases h with
    | here => left; exact MidRun.here fs (x :: rest)
    | interruptedWrite fs path content partContent _ =>
      left
      exact MidRun.interruptedWrite fs path content partContent rest
    | step _ _ _ _ h' =>
      rcases ih ys (applyOp fs x) fs' h' with hl | hr
      · left; exact MidRun.step fs x rest fs' hl
      · right; exact hr

/-- The temp path differs from the data path (it is four characters longer). -/
theorem tmpPath_ne (dataPath : String) : tmpPath dataPath ≠ dataPath := by
  intro h
  have hlen : (tmpPath dataPath).length = dataPath.length := by rw [h]
  rw [tmpPath, String.length_append,
    show (".tmp" : String).length = 4 from rfl] at hlen
  omega

/-- During the temp-write-then-rename tail of save, the data file reads as its
old content until the rename completes, and as the new content afterwards. -/
theorem midrun_write_rename (fs₁ : FileSys) (dataPath jsonData : String)
    (old : Option String) (hp : fs₁.read dataPath = old) :
    ∀ fs', MidRun fs₁
        [.write (tmpPath dataPath) jsonData, .rename (tmpPath dataPath) dataPath] fs' →
      fs'.read dataPath = old ∨ fs'.read dataPath = some jsonData := by
  have htmp := tmpPath_ne dataPath
  intro fs' h
  cases h with
  | here => left; exact hp
  | interruptedWrite _ _ _ partContent _ =>
    left
    rw [read_write_other fs₁ (tmpPath dataPath) partContent dataPath (Ne.symm htmp)]
    exact hp
  | step _ _ _ _ h2 =>
    rw [applyOp] at h2
    cases h2 with
    | here =>
      left
      rw [read_write_other fs₁ (tmpPath dataPath) jsonData dataPath (Ne.symm htmp)]
      exact hp
    | step _ _ _ _ h3 =>
      rw [applyOp, read_write_self fs₁ (tmpPath dataPath) jsonData] at h3
      cases h3 with
      | here =>
        right
        exact read_write_self _ dataPath jsonData

/-- A run that stops anywhere before the rename leaves the data file as it
was. -/
theorem midrun_write_only (fs₁ : FileSys) (dataPath jsonData : String)
    (old : Option String) (hp : fs₁.read dataPath = old) :
    ∀ fs', MidRun fs₁ [.write (tmpPath dataPath) jsonData] fs' →
      fs'.read dataPath = old := by
  have htmp := tmpPath_ne dataPath
  intro fs' h
  cases h with
  | here => exact hp
  | interruptedWrite _ _ _ partContent _ =>
    rw [read_write_other fs₁ (tmpPath dataPath) partContent dataPath (Ne.symm htmp)]
    exact hp
  | step _ _ _ _ h2 =>
    rw [applyOp] at h2
    cases h2 with
    | here =>
      rw [read_write_other fs₁ (tmpPath dataPath) jsonData dataPath (Ne.symm htmp)]
      exact hp

/-- C3: in every state observable during save — the run may stop before any
operation or inside an interrupted write — the target data file reads as
exactly its old content or exactly the new serialized content (first
conjunct), and a run interrupted anywhere before the rename (backup
activity and the temp-file write only) leaves the data file untouched
(second conjunct).  Backup operations are assumed to touch only paths other
than the data path, which holds since they live in the backup directory. -/
theorem C3_atomic_replace (fs₀ : FileSys) (dataPath : String) (backupOps : List FsOp)
    (jsonData : String)
    (hb : ∀ op ∈ backupOps, opAvoidsPath op dataPath) :
    (∀ fs', MidRun fs₀ (saveOps dataPath backupOps jsonData) fs' →
      fs'.read dataPath = fs₀.read dataPath ∨ fs'.read dataPath = some jsonData) ∧
    (∀ fs', MidRun fs₀ (backupOps ++ [.write (tmpPath dataPath) jsonData]) fs' →
      fs'.read dataPath = fs₀.read dataPath) := by
  have hpre : (runOps fs₀ backupOps).read dataPath = fs₀.read dataPath :=
    midrun_preserves dataPath backupOps fs₀ _ hb (midrun_complete backupOps fs₀)
  constructor
  · intro fs' h
    rw [saveOps] at h
    rcases midrun_append backupOps _ fs₀ fs' h with hl | hr
    · left; exact midrun_preserves dataPath backupOps fs₀ fs' hb hl
    · exact midrun_write_rename _ dataPath jsonData _ hpre fs' hr
  · intro fs' h
    rcases midrun_append backupOps _ fs₀ fs' h with hl | hr
    · exact midrun_preserves dataPath backupOps fs₀ fs' hb hl
    · exact midrun_write_only _ dataPath jsonData _ hpre fs' hr

/-- Instantiation of C3: a save of `"new-json"` interrupted in the middle of
the temp-file write (the temp file holding a partial string) leaves the data
file reading as its old content. -/
theorem C3_atomic_replace_witness :
    (FileSys.write [("data/todos.json", "old-content")]
        (tmpPath "data/todos.json") "par").read "data/todos.json" =
      FileSys.read [("data/todos.json", "old-content")] "data/todos.json" :=
  (C3_atomic_replace [("data/todos.json", "old-content")] "data/todos.json" [] "new-json"
      (by intro op hop; cases hop)).2
    _ (MidRun.interruptedWrite _ _ "new-json" "par" [])

/-- A found todo's id matches the searched id. -/
theorem findTodo_some_id (todos : List Todo) (id : String) (cur : Todo)
    (h : findTodo todos id = some cur) : cur.id = id := by
  have := List.find?_some h
  simpa using this

/-- A found todo is a member of the list. -/
theorem findTodo_mem (todos : List Todo) (id : String) (cur : Todo)
    (h : findTodo todos id = some cur) : cur ∈ todos :=
  List.mem_of_find?_eq_some h

/-- A member of the list after a first-match replacement is the replacement
or an original member. -/
theorem mem_replaceFirstTodo (todos : List Todo) (id : String) (nt t : Todo)
    (h : t ∈ replaceFirstTodo todos id nt) : t = nt ∨ t ∈ todos := by
  induction todos with
  | nil => cases h
  | cons x rest ih =>
    rw [replaceFirstTodo] at h
    by_cases hx : x.id == id
    · rw [if_pos hx] at h
      rcases List.mem_cons.mp h with ht | ht
      · left; exact ht
      · right; exact List.mem_cons_of_mem x ht
    · rw [if_neg hx] at h
      rcases List.mem_cons.mp h with ht | ht
      · right; rw [ht]; exact List.mem_cons_self x rest
      · rcases ih ht with hl | hr
        · left; exact hl
        · right; exact List.mem_cons_of_mem x hr

/-- After replacing the found todo by one with the same id, the lookup
returns the replacement. -/
theorem findTodo_replaceFirst (todos : List Todo) (id : String) (cur nt : Todo)
    (hf : findTodo todos id = some cur) (hid : nt.id = cur.id) :
    findTodo (replaceFirstTodo todos id nt) id = some nt := by
  induction todos with
  | nil => cases hf
  | cons x rest ih =>
    rw [findTodo, List.find?] at hf
    rw [replaceFirstTodo]
    by_cases hx : x.id == id
    · rw [if_pos hx]
      rw [hx] at hf
      rw [findTodo, List.find?]
      have hcur : x = cur := by simpa using hf
      have : (nt.id == id) = true := by
        rw [hid, ← hcur]
        exact hx
      rw [this]
    · rw [if_neg hx]
      have hx' : (x.id == id) = false := by simpa using hx
      rw [hx'] at hf
      rw [findTodo, List.find?, hx']
      exact ih hf

/-- The completion invariant of the spec: `completedAt` is present exactly
when `completed` is true. -/
def completionInv (t : Todo) : Prop := t.completedAt.isSome = t.completed

instance (t : Todo) : Decidable (completionInv t) :=
  decidable_of_iff (t.completedAt.isSome = t.completed) Iff.rfl

/-- `createTodo` establishes the completion invariant. -/
theorem completionInv_createTodo (input : TodoInput) (freshId : String) (now : Date) :
    completionInv (createTodo input freshId now) := by
  cases hc : input.completed <;> simp [completionInv, createTodo, hc]

/-- The merge performed by updateTodo keeps the completion invariant whenever
the update object does not itself carry a `completedAt` property. -/
theorem completionInv_merged (cur : Todo) (u : TodoUpdate) (now : Date)
    (hcur : completionInv cur) (habs : u.completedAt = JsOpt.absent) :
    completionInv (applyTodoUpdate cur (applyCompletionTransition u cur now)) := by
  rw [completionInv] at hcur
  cases hc : u.completed with
  | none =>
    simp [applyCompletionTransition, hc, applyTodoUpdate, completionInv, habs,
      JsOpt.mergeInto, hcur]
  | some c =>
    by_cases hq : c = cur.completed
    · simp [applyCompletionTransition, hc, hq, applyTodoUpdate, completionInv, habs,
        JsOpt.mergeInto, hcur]
    · have hne : (c != cur.completed) = true := by simpa using hq
      cases c with
      | true =>
        simp [applyCompletionTransition, hc, hne, applyTodoUpdate, completionInv,
          JsOpt.mergeInto]
      | false =>
        simp [applyCompletionTransition, hc, hne, applyTodoUpdate, completionInv,
          JsOpt.mergeInto]

/-- A transition to completed sets `completedAt` to the current time, whatever
the update object carried for it. -/
theorem transition_to_true (cur : Todo) (u : TodoUpdate) (now : Date)
    (hc : u.completed = some true) (hcur : cur.completed = false) :
    (applyTodoUpdate cur (applyCompletionTransition u cur now)).completed = true ∧
    (applyTodoUpdate cur (applyCompletionTransition u cur now)).completedAt = some now := by
  simp [applyCompletionTransition, hc, hcur, applyTodoUpdate, JsOpt.mergeInto]

/-- A transition back to not-completed clears `completedAt`. -/
theorem transition_to_false (cur : Todo) (u : TodoUpdate) (now : Date)
    (hc : u.completed = some false) (hcur : cur.completed = true) :
    (applyTodoUpdate cur (applyCompletionTransition u cur now)).completed = false ∧
    (applyTodoUpdate cur (applyCompletionTransition u cur now)).completedAt = none := by
  simp [applyCompletionTransition, hc, hcur, applyTodoUpdate, JsOpt.mergeInto]

/-- Structure of a successful updateTodo run: the guards passed, the found
todo was merged with the transition-adjusted updates, and the counts were
recomputed per the (unchanged) `categoryId` field of the update. -/
theorem updateTodo_ok (st : ManagerState) (id : String) (u : TodoUpdate) (now : Date)
    (b : Bool) (st' : ManagerState) (h : updateTodo st id u now = .ok (b, st')) :
    st.isInitialized = true ∧ b = true ∧ ∃ cur, findTodo st.todos id = some cur ∧
      st'.todos = replaceFirstTodo st.todos id
        (applyTodoUpdate cur (applyCompletionTransition u cur now)) ∧
      st'.categories = updateTodoCategories
        (replaceFirstTodo st.todos id
          (applyTodoUpdate cur (applyCompletionTransition u cur now)))
        st.categories cur.categoryId (applyCompletionTransition u cur now).categoryId ∧
      st'.isInitialized = true ∧ st'.nextId = st.nextId := by
  rw [updateTodo] at h
  by_cases hinit : st.isInitialized
  · rw [hinit] at h
    simp only [Bool.not_true, Bool.false_eq_true, if_false] at h
    cases hfind : findTodo st.todos id with
    | none => rw [hfind] at h; exact absurd h (by simp)
    | some cur =>
      rw [hfind] at h
      dsimp only at h
      by_cases g1 : (match u.title with
          | some t => (validateTitle t).isSome
          | none => false)
      · rw [if_pos g1] at h; exact absurd h (by simp)
      · rw [if_neg g1] at h
        by_cases g2 : (match u.description with
            | JsOpt.val d => (validateDescription (some d)).isSome
            | _ => false)
        · rw [if_pos g2] at h; exact absurd h (by simp)
        · rw [if_neg g2] at h
          by_cases g3 : (match u.priority with
              | some p => (validatePriority p).isSome
              | none => false)
          · rw [if_pos g3] at h; exact absurd h (by simp)
          · rw [if_neg g3] at h
            by_cases g4 : (match u.categoryId with
                | some c => !categoryExistsIn st.categories c
                | none => false)
            · rw [if_pos g4] at h; exact absurd h (by simp)
            · rw [if_neg g4] at h
              rw [Except.ok.injEq, Prod.mk.injEq] at h
              obtain ⟨hb, hst⟩ := h
              subst hst
              exact ⟨hinit, hb.symm, cur, rfl, rfl, rfl, rfl, rfl⟩
  · simp only [Bool.not_eq_true] at hinit
    rw [hinit] at h
    exact absurd h (by simp)

/-- Structure of a successful addTodo run. -/
theorem addTodo_ok (st : ManagerState) (input : TodoInput) (now : Date)
    (todo : Todo) (st' : ManagerState) (h : addTodo st input now = .ok (todo, st')) :
    st.isInitialized = true ∧ validateTodoInput input = [] ∧
    categoryExistsIn st.categories input.categoryId = true ∧
    todo = createTodo input (uuid st.nextId) now ∧
    st'.todos = st.todos ++ [createTodo input (uuid st.nextId) now] ∧
    st'.categories = updateCategoryTodoCount
      (st.todos ++ [createTodo input (uuid st.nextId) now]) st.categories input.categoryId ∧
    st'.isInitialized = true ∧ st'.nextId = st.nextId + 1 := by
  rw [addTodo] at h
  by_cases hinit : st.isInitialized
  · rw [hinit] at h
    simp only [Bool.not_true, Bool.false_eq_true, if_false] at h
    by_cases hval : validateTodoInput input ≠ []
    · rw [if_pos hval] at h; exact absurd h (by simp)
    · rw [if_neg hval] at h
      rw [not_not] at hval
      by_cases hcat : !categoryExistsIn st.categories input.categoryId
      · rw [if_pos hcat] at h; exact absurd h (by simp)
      · rw [if_neg hcat] at h
        rw [Except.ok.injEq, Prod.mk.injEq] at h
        obtain ⟨hb, hst⟩ := h
        subst hst
        exact ⟨hinit, hval, by simpa using hcat, hb.symm, rfl, rfl, rfl, rfl⟩
  · simp only [Bool.not_eq_true] at hinit
    rw [hinit] at h
    exact absurd h (by simp)

/-- A successful toggle is a successful updateTodo with the negated completed
flag (and nothing else) as the update object. -/
theorem toggleTodoCompletion_ok (st : ManagerState) (id : String) (now : Date)
    (b : Bool) (st' : ManagerState) (h : toggleTodoCompletion st id now = .ok (b, st')) :
    ∃ cur, findTodo st.todos id = some cur ∧
      updateTodo st id { completed := some (!cur.completed) } now = .ok (b, st') := by
  rw [toggleTodoCompletion] at h
  by_cases hinit : st.isInitialized
  · rw [hinit] at h
    simp only [Bool.not_true, Bool.false_eq_true, if_false] at h
    cases hfind : findTodo st.todos id with
    | none => rw [hfind] at h; exact absurd h (by simp)
    | some cur =>
      rw [hfind] at h
      exact ⟨cur, rfl, h⟩
  · simp only [Bool.not_eq_true] at hinit
    rw [hinit] at h
    exact absurd h (by simp)

/-- updateTodo preserves the completion invariant for update objects not
carrying a `completedAt` property of their own. -/
theorem updateTodo_preserves_completionInv (st : ManagerState) (id : String)
    (u : TodoUpdate) (now : Date) (b : Bool) (st' : ManagerState)
    (habs : u.completedAt = JsOpt.absent)
    (hall : ∀ t ∈ st.todos, completionInv t)
    (h : updateTodo st id u now = .ok (b, st')) :
    ∀ t ∈ st'.todos, completionInv t := by
  obtain ⟨_, _, cur, hfind, htodos, _⟩ := updateTodo_ok st id u now b st' h
  intro t ht
  rw [htodos] at ht
  rcases mem_replaceFirstTodo _ _ _ _ ht with hm | hm
  · rw [hm]
    exact completionInv_merged cur u now (hall cur (findTodo_mem _ _ _ hfind)) habs
  · exact hall t hm

/-- The todo of the C6 counterexample, not completed and without a
completion date. -/
def c6Todo : Todo :=
  { id := "t1", title := "Call mom", description := none, completed := false,
    priority := .low, categoryId := "c1", createdAt := 0, completedAt := none,
    dueDate := none }

/-- An initialized coordinator state holding only `c6Todo`. -/
def c6State : ManagerState :=
  { todos := [c6Todo],
    categories := [{ id := "c1", name := "General", color := "#ffffff", todoCount := 1 }],
    isInitialized := true,
    nextId := 0 }

/-- What `c6Todo` becomes after the direct-`completedAt` update. -/
def c6AfterTodo : Todo := { c6Todo with completedAt := some 42 }

/-- C6 counterexample: passing `{ completedAt: someDate }` through updateTodo
— the update type `Partial<Omit<Todo, 'id' | 'createdAt'>>` admits it —
succeeds and produces a todo with `completed = false` but `completedAt`
present, breaking the claimed iff-invariant on the coordinator's own write
path. -/
theorem C6_counterexample_direct_completedAt_payload :
    updateTodo c6State "t1" { completedAt := JsOpt.val 42 } 7 =
      .ok (true, { c6State with todos := [c6AfterTodo] }) ∧
    c6AfterTodo.completed = false ∧ c6AfterTodo.completedAt = some 42 ∧
    ¬ completionInv c6AfterTodo :=
  ⟨by decide, rfl, rfl, by decide⟩

/-- C6 amended: the completion invariant (`completedAt` present iff
`completed`) is established by `createTodo` and preserved by `addTodo`, by
`toggleTodoCompletion`, and by every `updateTodo` whose update object does
not itself carry a `completedAt` property; moreover every update
transitioning `completed` to true sets `completedAt` to the current
(non-null) time and every update transitioning it to false clears it, even
against a caller-supplied `completedAt`.  A caller-supplied `completedAt`
without a `completed` transition, however, is merged verbatim and can break
the invariant. -/
theorem C6_completion_invariant_amended :
    (∀ input freshId now, completionInv (createTodo input freshId now)) ∧
    (∀ st input now todo st', (∀ t ∈ st.todos, completionInv t) →
      addTodo st input now = .ok (todo, st') → ∀ t ∈ st'.todos, completionInv t) ∧
    (∀ st id u now b st', u.completedAt = JsOpt.absent →
      (∀ t ∈ st.todos, completionInv t) →
      updateTodo st id u now = .ok (b, st') → ∀ t ∈ st'.todos, completionInv t) ∧
    (∀ st id now b st', (∀ t ∈ st.todos, completionInv t) →
      toggleTodoCompletion st id now = .ok (b, st') → ∀ t ∈ st'.todos, completionInv t) ∧
    (∀ st id u now b st' cur, findTodo st.todos id = some cur →
      u.completed = some true → cur.completed = false →
      updateTodo st id u now = .ok (b, st') →
      ∃ t', findTodo st'.todos id = some t' ∧ t'.completed = true ∧
        t'.completedAt = some now) ∧
    (∀ st id u now b st' cur, findTodo st.todos id = some cur →
      u.completed = some false → cur.completed = true →
      updateTodo st id u now = .ok (b, st') →
      ∃ t', findTodo st'.todos id = some t' ∧ t'.completed = false ∧
        t'.completedAt = none) := by
  refine ⟨completionInv_createTodo, ?_, ?_, ?_, ?_, ?_⟩
  · intro st input now todo st' hall h
    obtain ⟨_, _, _, _, htodos, _⟩ := addTodo_ok st input now todo st' h
    intro t ht
    rw [htodos] at ht
    rcases List.mem_append.mp ht with hm | hm
    · exact hall t hm
    · rw [List.mem_singleton.mp hm]
      exact completionInv_createTodo input (uuid st.nextId) now
  · intro st id u now b st' habs hall h
    exact updateTodo_preserves_completionInv st id u now b st' habs hall h
  · intro st id now b st' hall h
    obtain ⟨cur, hfind, hupd⟩ := toggleTodoCompletion_ok st id now b st' h
    exact updateTodo_preserves_completionInv st id _ now b st' rfl hall hupd
  · intro st id u now b st' cur hfind hc hcur h
    obtain ⟨_, _, cur2, hfind2, htodos, _⟩ := updateTodo_ok st id u now b st' h
    rw [hfind] at hfind2
    have hcc : cur2 = cur := by injection hfind2.symm
    subst hcc
    refine ⟨applyTodoUpdate cur2 (applyCompletionTransition u cur2 now), ?_, ?_, ?_⟩
    · rw [htodos]
      exact findTodo_replaceFirst st.todos id cur2 _ hfind rfl
    · exact (transition_to_true cur2 u now hc hcur).1
    · exact (transition_to_true cur2 u now hc hcur).2
  · intro st id u now b st' cur hfind hc hcur h
    obtain ⟨_, _, cur2, hfind2, htodos, _⟩ := updateTodo_ok st id u now b st' h
    rw [hfind] at hfind2
    have hcc : cur2 = cur := by injection hfind2.symm
    subst hcc
    refine ⟨applyTodoUpdate cur2 (applyCompletionTransition u cur2 now), ?_, ?_, ?_⟩
    · rw [htodos]
      exact findTodo_replaceFirst st.todos id cur2 _ hfind rfl
    · exact (transition_to_false cur2 u now hc hcur).1
    · exact (transition_to_false cur2 u now hc hcur).2

/-- Instantiation of the amended C6 theorem: completing `c6Todo` through
updateTodo stamps `completedAt` with the current time. -/
theorem C6_completion_invariant_amended_witness :
    ∃ t', findTodo ({ c6State with
        todos := [{ c6Todo with completed := true, completedAt := some 9 }] } :
          ManagerState).todos "t1" = some t' ∧
      t'.completed = true ∧ t'.completedAt = some 9 :=
  C6_completion_invariant_amended.2.2.2.2.1 c6State "t1" { completed := some true } 9 true
    { c6State with todos := [{ c6Todo with completed := true, completedAt := some 9 }] }
    c6Todo (by decide) rfl rfl (by decide)

/-- A list of strings strictly increasing in filename order has no
duplicates. -/
theorem strPairwise_nodup (l : List String)
    (h : List.Pairwise (fun a b : String => a.data < b.data) l) : l.Nodup :=
  h.imp (fun hab => by
    intro he
    rw [he] at hab
    exact lt_irrefl _ hab)

/-- Sorting an already ascending list is the identity. -/
theorem sortStrings_of_sorted (l : List String)
    (h : List.Pairwise (fun a b : String => a.data < b.data) l) :
    sortStrings l = l := by
  rw [sortStrings]
  exact List.Sorted.insertionSort_eq (h.imp le_of_lt)

/-- Removing the first `k` elements of a duplicate-free list by membership
test keeps exactly the remaining suffix. -/
theorem filter_not_mem_take (l : List String) (k : Nat) (hnd : l.Nodup) :
    l.filter (fun f => !(l.take k).contains f) = l.drop k := by
  induction l generalizing k with
  | nil => simp
  | cons x rest ih =>
    cases k with
    | zero =>
      simp only [List.take_zero, List.drop_zero]
      apply List.filter_eq_self.mpr
      intro a _
      simp [List.contains]
    | succ k =>
      rw [List.nodup_cons] at hnd
      rw [List.take_succ_cons, List.drop_succ_cons, List.filter_cons]
      have hx : ((x :: rest.take k).contains x) = true := by simp [List.contains]
      rw [hx]
      simp only [Bool.not_true, Bool.false_eq_true, if_false]
      have hcongr : rest.filter (fun f => !(x :: rest.take k).contains f) =
          rest.filter (fun f => !(rest.take k).contains f) := by
        apply List.filter_congr
        intro a ha
        have hne : a ≠ x := fun he => hnd.1 (he ▸ ha)
        simp [List.contains, List.elem_cons, hne]
      rw [hcongr]
      exact ih k hnd.2

/-- Backup rotation on an ascending directory of matching backup names keeps
exactly the trailing (most recent) `m` names, deleting the oldest excess. -/
theorem cleanup_sorted (m : Nat) (files : List String)
    (hsort : List.Pairwise (fun a b : String => a.data < b.data) files)
    (hmatch : ∀ f ∈ files, isBackupFileName f = true) :
    cleanupOldBackups m files = files.drop (files.length - m) := by
  have hnd := strPairwise_nodup files hsort
  rw [cleanupOldBackups]
  rw [List.filter_eq_self.mpr hmatch, sortStrings_of_sorted files hsort]
  by_cases hlen : files.reverse.length > m
  · rw [if_pos hlen]
    have hmle : m ≤ files.length := by
      rw [List.length_reverse] at hlen
      omega
    have hdrop : files.reverse.drop m = (files.take (files.length - m)).reverse := by
      rw [List.reverse_take]
      congr 1
      omega
    rw [hdrop]
    have hcongr :
        files.filter (fun f => !((files.take (files.length - m)).reverse.contains f)) =
          files.filter (fun f => !((files.take (files.length - m)).contains f)) := by
      apply List.filter_congr
      intro a _
      simp [List.elem_eq_mem, List.contains]
    rw [hcongr, filter_not_mem_take files (files.length - m) hnd]
  · rw [if_neg hlen]
    rw [List.length_reverse] at hlen
    have hz : files.length - m = 0 := by omega
    rw [hz, List.drop_zero]

/-- Folding successive backup creations: with chronologically (hence
filename-) increasing names, the directory always holds the most recent `N`
of the names created so far. -/
theorem foldl_createBackupStep (N : Nat) (hN : 1 ≤ N) :
    ∀ (names acc : List String),
      List.Pairwise (fun a b : String => a.data < b.data) (acc ++ names) →
      (∀ f ∈ acc ++ names, isBackupFileName f = true) →
      acc.length ≤ N →
      List.foldl (createBackupStep (some N)) acc names =
        (acc ++ names).drop ((acc ++ names).length - N) := by
  intro names
  induction names with
  | nil =>
    intro acc hsort hmatch hlen
    simp only [List.append_nil, List.foldl_nil]
    have hz : acc.length - N = 0 := by omega
    rw [hz, List.drop_zero]
  | cons x rest ih =>
    intro acc hsort hmatch hlen
    rw [List.foldl_cons]
    have hpa := List.pairwise_append.mp hsort
    have hxnotin : acc.contains x = false := by
      simp only [List.contains, List.elem_eq_mem, decide_eq_false_iff_not]
      intro hmem
      have := hpa.2.2 x hmem x (List.mem_cons_self x rest)
      exact lt_irrefl _ this
    have hstep : createBackupStep (some N) acc x = cleanupOldBackups N (acc ++ [x]) := by
      rw [createBackupStep, hxnotin]
      simp only [Bool.false_eq_true, if_false]
      have : N ≠ 0 := by omega
      rw [if_pos this]
    have hsub1 : (acc ++ [x]).Sublist (acc ++ x :: rest) :=
      List.Sublist.append_left ((List.nil_sublist rest).cons₂ x) acc
    have hsort1 : List.Pairwise (fun a b : String => a.data < b.data) (acc ++ [x]) :=
      hsort.sublist hsub1
    have hmatch1 : ∀ f ∈ acc ++ [x], isBackupFileName f = true :=
      fun f hf => hmatch f (hsub1.mem hf)
    rw [hstep, cleanup_sorted N (acc ++ [x]) hsort1 hmatch1]
    rw [List.length_append, List.length_singleton]
    by_cases hc : acc.length + 1 ≤ N
    · have hz : acc.length + 1 - N = 0 := by omega
      rw [hz, List.drop_zero]
      have hassoc : (acc ++ [x]) ++ rest = acc ++ x :: rest := by
        rw [List.append_assoc, List.singleton_append]
      have := ih (acc ++ [x])
        (by rw [hassoc]; exact hsort)
        (by rw [hassoc]; exact hmatch)
        (by rw [List.length_append, List.length_singleton]; exact hc)
      rw [hassoc] at this
      exact this
    · have hA : acc.length = N := by omega
      have hone : acc.length + 1 - N = 1 := by omega
      rw [hone]
      set acc' := (acc ++ [x]).drop 1 with hacc'
      have hacc'eq : acc' ++ rest = (acc ++ x :: rest).drop 1 := by
        rw [hacc']
        have h1le : 1 ≤ (acc ++ [x]).length := by
          rw [List.length_append, List.length_singleton]
          omega
        have hdp : ((acc ++ [x]) ++ rest).drop 1 = (acc ++ [x]).drop 1 ++ rest :=
          List.drop_append_of_le_length h1le
        rw [← hdp, List.append_assoc, List.singleton_append]
      have hsub2 : (acc' ++ rest).Sublist (acc ++ x :: rest) := by
        rw [hacc'eq]
        exact List.drop_sublist 1 (acc ++ x :: rest)
      have hlen' : acc'.length = N := by
        rw [hacc', List.length_drop, List.length_append, List.length_singleton]
        omega
      have := ih acc' (hsort.sublist hsub2) (fun f hf => hmatch f (hsub2.mem hf))
        (le_of_eq hlen')
      rw [this, hacc'eq, List.drop_drop]
      congr 1
      rw [List.length_drop]
      simp only [List.length_append, List.length_cons]
      omega

/-- C9: (i) on a chronologically named, ascending backup directory, rotation
keeps exactly the `m` most recent (largest-named) backups, deleting the
oldest excess; (ii) files not matching the backup-name pattern are never
deleted; (iii) performing N+1 backups with max-backups N starting from an
empty directory leaves exactly N files, namely the N most recent by
filename order (all but the first created). -/
theorem C9_backup_rotation_keeps_most_recent :
    (∀ m files,
      List.Pairwise (fun a b : String => a.data < b.data) files →
      (∀ f ∈ files, isBackupFileName f = true) →
      cleanupOldBackups m files = files.drop (files.length - m)) ∧
    (∀ m files f, f ∈ files → isBackupFileName f = false →
      f ∈ cleanupOldBackups m files) ∧
    (∀ N names, 1 ≤ N →
      List.Pairwise (fun a b : String => a.data < b.data) names →
      (∀ n ∈ names, isBackupFileName n = true) →
      names.length = N + 1 →
      List.foldl (createBackupStep (some N)) [] names = names.drop 1 ∧
      (List.foldl (createBackupStep (some N)) [] names).length = N) := by
  refine ⟨cleanup_sorted, ?_, ?_⟩
  · intro m files f hf hnm
    rw [cleanupOldBackups]
    by_cases hlen : ((sortStrings (files.filter isBackupFileName)).reverse).length > m
    · rw [if_pos hlen]
      rw [List.mem_filter]
      refine ⟨hf, ?_⟩
      have hnotdel : f ∉ (sortStrings (files.filter isBackupFileName)).reverse.drop m := by
        intro hdel
        have h1 : f ∈ (sortStrings (files.filter isBackupFileName)).reverse :=
          (List.drop_sublist m _).mem hdel
        rw [List.mem_reverse, sortStrings, List.mem_insertionSort] at h1
        rw [List.mem_filter] at h1
        rw [h1.2] at hnm
        cases hnm
      simp only [List.contains, List.elem_eq_mem, decide_eq_false_iff_not, Bool.not_eq_true',
        decide_eq_false hnotdel]
    · rw [if_neg hlen]
      exact hf
  · intro N names hN hsort hmatch hlen
    have := foldl_createBackupStep N hN names []
      (by simpa using hsort) (by simpa using hmatch) (by simp)
    simp only [List.nil_append] at this
    rw [hlen] at this
    have hone : N + 1 - N = 1 := by omega
    rw [hone] at this
    refine ⟨this, ?_⟩
    rw [this, List.length_drop, hlen]
    omega

/-- Three chronologically increasing backup names. -/
def c9Names : List String :=
  ["todos-backup-2024-01-01T00-00-00-000Z.json",
   "todos-backup-2024-01-02T00-00-00-000Z.json",
   "todos-backup-2024-01-03T00-00-00-000Z.json"]

/-- Instantiation of C9: after three backups with max-backups 2, exactly the
two most recent snapshots remain. -/
theorem C9_backup_rotation_keeps_most_recent_witness :
    List.foldl (createBackupStep (some 2)) [] c9Names = c9Names.drop 1 ∧
    (List.foldl (createBackupStep (some 2)) [] c9Names).length = 2 :=
  C9_backup_rotation_keeps_most_recent.2.2 2 c9Names (by decide) (by decide) (by decide)
    (by decide)

/-- The number of todos carrying a given category id. -/
def catCount (todos : List Todo) (x : String) : Nat :=
  (getTodosByCategoryOf todos x).length

/-- The derived-count invariant: every category's stored `todoCount` equals
the number of todos referencing it. -/
def countsInv (st : ManagerState) : Prop :=
  ∀ c ∈ st.categories, c.todoCount = catCount st.todos c.id

/-- Category ids are pairwise distinct (uuid-generated ids collide with
probability zero; loaded data is assumed well-formed in this respect). -/
def catIdsNodup (st : ManagerState) : Prop :=
  (st.categories.map (fun c => c.id)).Nodup

/-- Counting distributes over list append. -/
theorem catCount_append (l₁ l₂ : List Todo) (x : String) :
    catCount (l₁ ++ l₂) x = catCount l₁ x + catCount l₂ x := by
  simp [catCount, getTodosByCategoryOf, List.filter_append]

/-- Counting a cons counts the head when it matches. -/
theorem catCount_cons (t : Todo) (rest : List Todo) (x : String) :
    catCount (t :: rest) x = (if t.categoryId = x then 1 else 0) + catCount rest x := by
  by_cases h : t.categoryId = x
  · simp [catCount, getTodosByCategoryOf, List.filter_cons, h, Nat.add_comm]
  · simp [catCount, getTodosByCategoryOf, List.filter_cons, h]

/-- A successful todo lookup splits the list around the first match, and
describes first-match replacement and removal on that split. -/
theorem findTodo_decomp (todos : List Todo) (id : String) (cur : Todo)
    (h : findTodo todos id = some cur) :
    ∃ l₁ l₂, todos = l₁ ++ cur :: l₂ ∧ (∀ t ∈ l₁, (t.id == id) = false) ∧
      (∀ nt, replaceFirstTodo todos id nt = l₁ ++ nt :: l₂) ∧
      removeFirstTodo todos id = l₁ ++ l₂ := by
  induction todos with
  | nil => cases h
  | cons x rest ih =>
    rw [findTodo, List.find?] at h
    cases hx : x.id == id with
    | true =>
      rw [hx] at h
      have hxc : x = cur := by simpa using h
      subst hxc
      refine ⟨[], rest, by simp, by simp, ?_, ?_⟩
      · intro nt
        rw [replaceFirstTodo, if_pos hx]
        simp
      · rw [removeFirstTodo, if_pos hx]
        simp
    | false =>
      rw [hx] at h
      obtain ⟨l₁, l₂, hdec, hnone, hrep, hrem⟩ := ih h
      refine ⟨x :: l₁, l₂, by rw [List.cons_append, ← hdec], ?_, ?_, ?_⟩
      · intro t ht
        rcases List.mem_cons.mp ht with he | hm
        · rw [he]; exact hx
        · exact hnone t hm
      · intro nt
        rw [replaceFirstTodo, if_neg (by simp [hx]), hrep nt]
        simp
      · rw [removeFirstTodo, if_neg (by simp [hx]), hrem]
        simp

/-- A found category's id matches the searched id. -/
theorem findCategory_some_id (cats : List Category) (id : String) (cur : Category)
    (h : findCategory cats id = some cur) : cur.id = id := by
  have := List.find?_some h
  simpa using this

/-- A found category is a member of the list. -/
theorem findCategory_mem (cats : List Category) (id : String) (cur : Category)
    (h : findCategory cats id = some cur) : cur ∈ cats :=
  List.mem_of_find?_eq_some h

/-- A successful category lookup splits the list around the first match. -/
theorem findCategory_decomp (cats : List Category) (id : String) (cur : Category)
    (h : findCategory cats id = some cur) :
    ∃ l₁ l₂, cats = l₁ ++ cur :: l₂ ∧ (∀ c ∈ l₁, (c.id == id) = false) ∧
      (∀ nc, replaceFirstCategory cats id nc = l₁ ++ nc :: l₂) ∧
      removeFirstCategory cats id = l₁ ++ l₂ := by
  induction cats with
  | nil => cases h
  | cons x rest ih =>
    rw [findCategory, List.find?] at h
    cases hx : x.id == id with
    | true =>
      rw [hx] at h
      have hxc : x = cur := by simpa using h
      subst hxc
      refine ⟨[], rest, by simp, by simp, ?_, ?_⟩
      · intro nc
        rw [replaceFirstCategory, if_pos hx]
        simp
      · rw [removeFirstCategory, if_pos hx]
        simp
    | false =>
      rw [hx] at h
      obtain ⟨l₁, l₂, hdec, hnone, hrep, hrem⟩ := ih h
      refine ⟨x :: l₁, l₂, by rw [List.cons_append, ← hdec], ?_, ?_, ?_⟩
      · intro c hc
        rcases List.mem_cons.mp hc with he | hm
        · rw [he]; exact hx
        · exact hnone c hm
      · intro nc
        rw [replaceFirstCategory, if_neg (by simp [hx]), hrep nc]
        simp
      · rw [removeFirstCategory, if_neg (by simp [hx]), hrem]
        simp

/-- A map that fixes every member is the identity. -/
theorem map_id_of_mem {α : Type} (l : List α) (f : α → α) (h : ∀ a ∈ l, f a = a) :
    l.map f = l := by
  induction l with
  | nil => rfl
  | cons x rest ih =>
    rw [List.map_cons, h x (List.mem_cons_self x rest), ih (fun a ha => h a (List.mem_cons_of_mem x ha))]

/-- With pairwise-distinct category ids, updating the first matching
category equals updating every matching category. -/
theorem setTodoCountFirst_eq_map (cats : List Category) (cid : String) (n : Nat)
    (hnd : (cats.map (fun c => c.id)).Nodup) :
    setTodoCountFirst cats cid n =
      cats.map (fun c => if c.id = cid then { c with todoCount := n } else c) := by
  induction cats with
  | nil => rfl
  | cons c rest ih =>
    rw [List.map_cons, List.nodup_cons] at hnd
    rw [setTodoCountFirst, List.map_cons]
    by_cases hc : c.id == cid
    · rw [if_pos hc]
      have hceq : c.id = cid := by simpa using hc
      rw [if_pos hceq]
      have hrest : rest.map (fun x => if x.id = cid then { x with todoCount := n } else x)
          = rest := by
        apply map_id_of_mem
        intro a ha
        have : a.id ≠ cid := by
          intro he
          apply hnd.1
          rw [hceq, ← he]
          exact List.mem_map.mpr ⟨a, ha, rfl⟩
        rw [if_neg this]
      rw [hrest]
    · rw [if_neg hc]
      have hcne : ¬ c.id = cid := by simpa using hc
      rw [if_neg hcne, ih hnd.2]

theorem deleteTodo_ok (st : ManagerState) (id : String) (b : Bool) (st' : ManagerState)
    (h : deleteTodo st id = .ok (b, st')) :
    st.isInitialized = true ∧ b = true ∧ ∃ cur, findTodo st.todos id = some cur ∧
      st'.todos = removeFirstTodo st.todos id ∧
      st'.categories = updateCategoryTodoCount (removeFirstTodo st.todos id)
        st.categories cur.categoryId ∧
      st'.isInitialized = true ∧ st'.nextId = st.nextId := by
  rw [deleteTodo] at h
  by_cases hinit : st.isInitialized
  · rw [hinit] at h
    simp only [Bool.not_true, Bool.false_eq_true, if_false] at h
    cases hfind : findTodo st.todos id with
    | none => rw [hfind] at h; exact absurd h (by simp)
    | some cur =>
      rw [hfind] at h
      rw [Except.ok.injEq, Prod.mk.injEq] at h
      obtain ⟨hb, hst⟩ := h
      subst hst
      exact ⟨hinit, hb.symm, cur, rfl, rfl, rfl, rfl, rfl⟩
  · simp only [Bool.not_eq_true] at hinit
    rw [hinit] at h
    exact absurd h (by simp)

theorem addCategory_ok (st : ManagerState) (input : CategoryInput)
    (cat : Category) (st' : ManagerState) (h : addCategory st input = .ok (cat, st')) :
    st.isInitialized = true ∧ cat = createCategory input (uuid st.nextId) ∧
    st'.todos = st.todos ∧
    st'.categories = st.categories ++ [createCategory input (uuid st.nextId)] ∧
    st'.isInitialized = true ∧ st'.nextId = st.nextId + 1 := by
  rw [addCategory] at h
  by_cases hinit : st.isInitialized
  · rw [hinit] at h
    simp only [Bool.not_true, Bool.false_eq_true, if_false] at h
    by_cases hval : validateCategoryInput input ≠ []
    · rw [if_pos hval] at h; exact absurd h (by simp)
    · rw [if_neg hval] at h
      by_cases hu : !isNameUnique input.name st.categories
      · rw [if_pos hu] at h; exact absurd h (by simp)
      · rw [if_neg hu] at h
        rw [Except.ok.injEq, Prod.mk.injEq] at h
        obtain ⟨hb, hst⟩ := h
        subst hst
        exact ⟨hinit, hb.symm, rfl, rfl, rfl, rfl⟩
  · simp only [Bool.not_eq_true] at hinit
    rw [hinit] at h
    exact absurd h (by simp)

theorem updateCategory_ok (st : ManagerState) (id : String) (u : CategoryUpdate)
    (b : Bool) (st' : ManagerState) (h : updateCategory st id u = .ok (b, st')) :
    st.isInitialized = true ∧ b = true ∧ ∃ cur, findCategory st.categories id = some cur ∧
      st'.todos = st.todos ∧
      st'.categories = replaceFirstCategory st.categories id
        { id := cur.id, name := u.name.getD cur.name, color := u.color.getD cur.color,
          todoCount := cur.todoCount } ∧
      st'.isInitialized = true ∧ st'.nextId = st.nextId := by
  rw [updateCategory] at h
  by_cases hinit : st.isInitialized
  · rw [hinit] at h
    simp only [Bool.not_true, Bool.false_eq_true, if_false] at h
    cases hfind : findCategory st.categories id with
    | none => rw [hfind] at h; exact absurd h (by simp)
    | some cur =>
      rw [hfind] at h
      dsimp only at h
      by_cases g1 : (match u.name with
          | some n => (validateName n).isSome
          | none => false)
      · rw [if_pos g1] at h; exact absurd h (by simp)
      · rw [if_neg g1] at h
        by_cases g2 : (match u.name with
            | some n => !isNameUnique n (st.categories.filter fun cat => cat.id != id)
            | none => false)
        · rw [if_pos g2] at h; exact absurd h (by simp)
        · rw [if_neg g2] at h
          by_cases g3 : (match u.color with
              | some c => (validateColor c).isSome
              | none => false)
          · rw [if_pos g3] at h; exact absurd h (by simp)
          · rw [if_neg g3] at h
            rw [Except.ok.injEq, Prod.mk.injEq] at h
            obtain ⟨hb, hst⟩ := h
            subst hst
            exact ⟨hinit, hb.symm, cur, rfl, rfl, rfl, rfl, rfl⟩
  · simp only [Bool.not_eq_true] at hinit
    rw [hinit] at h
    exact absurd h (by simp)

/-- Maps agreeing on members are equal. -/
theorem map_eq_map_of_mem {α β : Type} (l : List α) (f g : α → β)
    (h : ∀ a ∈ l, f a = g a) : l.map f = l.map g := by
  induction l with
  | nil => rfl
  | cons x rest ih =>
    rw [List.map_cons, List.map_cons, h x (List.mem_cons_self x rest),
      ih (fun a ha => h a (List.mem_cons_of_mem x ha))]

/-- The one-category count recomputation as a map, under distinct ids. -/
theorem updateCategoryTodoCount_eq_map (todos : List Todo) (cats : List Category)
    (cid : String) (hnd : (cats.map (fun c => c.id)).Nodup) :
    updateCategoryTodoCount todos cats cid =
      cats.map (fun c => if c.id = cid then { c with todoCount := catCount todos cid } else c) := by
  rw [updateCategoryTodoCount, setTodoCountFirst_eq_map _ _ _ hnd]
  rfl

/-- An id-preserving update leaves the id listing unchanged. -/
theorem ids_map_update (cats : List Category) (f : Category → Category)
    (hf : ∀ c, (f c).id = c.id) :
    (cats.map f).map (fun c => c.id) = cats.map (fun c => c.id) := by
  rw [List.map_map]
  exact map_eq_map_of_mem cats _ _ (fun a _ => hf a)

/-- addTodo preserves the derived-count invariant and id distinctness. -/
theorem addTodo_counts (st : ManagerState) (input : TodoInput) (now : Date)
    (todo : Todo) (st' : ManagerState)
    (hnd : catIdsNodup st) (hinv : countsInv st)
    (h : addTodo st input now = .ok (todo, st')) :
    countsInv st' ∧ catIdsNodup st' := by
  obtain ⟨_, _, _, _, htodos, hcats, _, _⟩ := addTodo_ok st input now todo st' h
  rw [updateCategoryTodoCount_eq_map _ _ _ hnd] at hcats
  constructor
  · intro c hc
    rw [hcats] at hc
    obtain ⟨c₀, hc₀, hfc⟩ := List.mem_map.mp hc
    rw [htodos]
    by_cases hid : c₀.id = input.categoryId
    · rw [if_pos hid] at hfc
      rw [← hfc]
      simp only [hid]
    · rw [if_neg hid] at hfc
      rw [← hfc, catCount_append]
      have hz : catCount [createTodo input (uuid st.nextId) now] c₀.id = 0 := by
        simp only [catCount, getTodosByCategoryOf, createTodo, List.filter]
        have : (input.categoryId == c₀.id) = false := by
          simpa using fun he => hid he.symm
        rw [this]
        rfl
      rw [hz, Nat.add_zero]
      exact hinv c₀ hc₀
  · rw [catIdsNodup, hcats, ids_map_update]
    · exact hnd
    · intro c
      by_cases hid : c.id = input.categoryId
      · rw [if_pos hid]
      · rw [if_neg hid]

/-- The completion transition never touches the update's `categoryId`. -/
theorem applyCompletionTransition_categoryId (u : TodoUpdate) (cur : Todo) (now : Date) :
    (applyCompletionTransition u cur now).categoryId = u.categoryId := by
  cases hc : u.completed with
  | none => simp [applyCompletionTransition, hc]
  | some c =>
    by_cases hq : (c != cur.completed) = true
    · simp only [applyCompletionTransition, hc]
      rw [if_pos hq]
      cases c <;> rfl
    · simp only [applyCompletionTransition, hc]
      rw [if_neg hq]

/-- Counting around a distinguished middle element. -/
theorem catCount_middle (l₁ l₂ : List Todo) (b : Todo) (x : String) :
    catCount (l₁ ++ b :: l₂) x =
      catCount l₁ x + ((if b.categoryId = x then 1 else 0) + catCount l₂ x) := by
  rw [catCount_append, catCount_cons]

/-- updateTodo preserves the derived-count invariant and id distinctness:
when the category changes, both recomputed counts are correct, and all
other categories' counts are unaffected by the move. -/
theorem updateTodo_counts (st : ManagerState) (id : String) (u : TodoUpdate) (now : Date)
    (b : Bool) (st' : ManagerState)
    (hnd : catIdsNodup st) (hinv : countsInv st)
    (h : updateTodo st id u now = .ok (b, st')) :
    countsInv st' ∧ catIdsNodup st' := by
  obtain ⟨_, _, cur, hfind, htodos, hcats, _, _⟩ := updateTodo_ok st id u now b st' h
  obtain ⟨l₁, l₂, hdec, _, hrep, _⟩ := findTodo_decomp st.todos id cur hfind
  set merged := applyTodoUpdate cur (applyCompletionTransition u cur now) with hmerged
  rw [hrep merged] at htodos
  have hmcat : merged.categoryId = u.categoryId.getD cur.categoryId := by
    rw [hmerged, applyTodoUpdate, applyCompletionTransition_categoryId]
  simp only [updateTodoCategories, applyCompletionTransition_categoryId] at hcats
  cases hu : u.categoryId with
  | none =>
    rw [hu] at hcats
    dsimp only at hcats
    have hsame : ∀ x, catCount st'.todos x = catCount st.todos x := by
      intro x
      rw [htodos, hdec, catCount_middle, catCount_middle]
      have : merged.categoryId = cur.categoryId := by
        rw [hmcat, hu]
        rfl
      rw [this]
    constructor
    · intro c hc
      rw [hcats] at hc
      rw [hsame c.id]
      exact hinv c hc
    · rw [catIdsNodup, hcats]
      exact hnd
  | some nc =>
    rw [hu] at hcats
    dsimp only at hcats
    rw [hrep merged, ← htodos] at hcats
    by_cases hne : (nc != cur.categoryId) = true
    · rw [if_pos hne] at hcats
      have hnc : nc ≠ cur.categoryId := by simpa using hne
      have hnd2 : ((st.categories.map (fun c =>
          if c.id = cur.categoryId
          then { c with todoCount := catCount st'.todos cur.categoryId } else c)).map
          (fun c => c.id)).Nodup := by
        rw [ids_map_update]
        · exact hnd
        · intro c
          by_cases hid : c.id = cur.categoryId
          · rw [if_pos hid]
          · rw [if_neg hid]
      rw [updateCategoryTodoCount_eq_map _ _ _ hnd] at hcats
      rw [show updateCategoryTodoCount st'.todos
            (st.categories.map (fun c =>
              if c.id = cur.categoryId
              then { c with todoCount := catCount st'.todos cur.categoryId } else c)) nc =
          (st.categories.map (fun c =>
              if c.id = cur.categoryId
              then { c with todoCount := catCount st'.todos cur.categoryId } else c)).map
            (fun c => if c.id = nc then { c with todoCount := catCount st'.todos nc } else c)
        from updateCategoryTodoCount_eq_map _ _ _ hnd2] at hcats
      have hmc : merged.categoryId = nc := by
        rw [hmcat, hu]
        rfl
      constructor
      · intro c hc
        rw [hcats, List.map_map] at hc
        obtain ⟨c₀, hc₀, hfc⟩ := List.mem_map.mp hc
        dsimp only [Function.comp] at hfc
        by_cases h1 : c₀.id = cur.categoryId
        · rw [if_pos h1] at hfc
          have h2 : ¬ c₀.id = nc := fun he => hnc (he.symm.trans h1)
          rw [if_neg (by
            show ¬ ({ c₀ with todoCount := catCount st'.todos cur.categoryId } : Category).id = nc
            exact h2)] at hfc
          rw [← hfc]
          simp only [h1]
        · rw [if_neg h1] at hfc
          by_cases h2 : c₀.id = nc
          · rw [if_pos h2] at hfc
            rw [← hfc]
            simp only [h2]
          · rw [if_neg h2] at hfc
            rw [← hfc]
            have hx : catCount st'.todos c₀.id = catCount st.todos c₀.id := by
              rw [htodos, hdec, catCount_middle, catCount_middle]
              have e1 : ¬ merged.categoryId = c₀.id := by
                rw [hmc]
                exact fun he => h2 he.symm
              have e2 : ¬ cur.categoryId = c₀.id := fun he => h1 he.symm
              rw [if_neg e1, if_neg e2]
            rw [hx]
            exact hinv c₀ hc₀
      · rw [catIdsNodup, hcats, ids_map_update]
        · exact hnd2
        · intro c
          by_cases hid : c.id = nc
          · rw [if_pos hid]
          · rw [if_neg hid]
    · rw [if_neg hne] at hcats
      have hnc : nc = cur.categoryId := by simpa using hne
      have hsame : ∀ x, catCount st'.todos x = catCount st.todos x := by
        intro x
        rw [htodos, hdec, catCount_middle, catCount_middle]
        have : merged.categoryId = cur.categoryId := by
          rw [hmcat, hu, ← hnc]
          rfl
        rw [this]
      constructor
      · intro c hc
        rw [hcats] at hc
        rw [hsame c.id]
        exact hinv c hc
      · rw [catIdsNodup, hcats]
        exact hnd

/-- deleteTodo preserves the derived-count invariant and id distinctness. -/
theorem deleteTodo_counts (st : ManagerState) (id : String) (b : Bool) (st' : ManagerState)
    (hnd : catIdsNodup st) (hinv : countsInv st)
    (h : deleteTodo st id = .ok (b, st')) :
    countsInv st' ∧ catIdsNodup st' := by
  obtain ⟨_, _, cur, hfind, htodos, hcats, _, _⟩ := deleteTodo_ok st id b st' h
  obtain ⟨l₁, l₂, hdec, _, _, hrem⟩ := findTodo_decomp st.todos id cur hfind
  rw [hrem] at htodos hcats
  rw [updateCategoryTodoCount_eq_map _ _ _ hnd] at hcats
  constructor
  · intro c hc
    rw [hcats] at hc
    obtain ⟨c₀, hc₀, hfc⟩ := List.mem_map.mp hc
    by_cases hid : c₀.id = cur.categoryId
    · rw [if_pos hid] at hfc
      rw [← hfc, htodos]
      simp only [hid]
    · rw [if_neg hid] at hfc
      rw [← hfc, htodos]
      have hx : catCount (l₁ ++ l₂) c₀.id = catCount st.todos c₀.id := by
        rw [hdec, catCount_middle, catCount_append]
        have : ¬ cur.categoryId = c₀.id := fun he => hid he.symm
        rw [if_neg this]
        omega
      rw [hx]
      exact hinv c₀ hc₀
  · rw [catIdsNodup, hcats, ids_map_update]
    · exact hnd
    · intro c
      by_cases hid : c.id = cur.categoryId
      · rw [if_pos hid]
      · rw [if_neg hid]

/-- addCategory preserves the derived-count invariant: the new category
starts at count zero, correct because its fresh id is referenced by no
existing todo. -/
theorem addCategory_counts (st : ManagerState) (input : CategoryInput)
    (cat : Category) (st' : ManagerState)
    (hfresh : ∀ t ∈ st.todos, t.categoryId ≠ uuid st.nextId)
    (hinv : countsInv st)
    (h : addCategory st input = .ok (cat, st')) :
    countsInv st' := by
  obtain ⟨_, _, htodos, hcats, _, _⟩ := addCategory_ok st input cat st' h
  intro c hc
  rw [hcats] at hc
  rw [htodos]
  rcases List.mem_append.mp hc with hm | hm
  · exact hinv c hm
  · rw [List.mem_singleton.mp hm]
    show (createCategory input (uuid st.nextId)).todoCount = _
    have hid : (createCategory input (uuid st.nextId)).id = uuid st.nextId := rfl
    rw [hid]
    have hz : catCount st.todos (uuid st.nextId) = 0 := by
      rw [catCount, getTodosByCategoryOf]
      rw [List.filter_eq_nil_iff.mpr]
      · rfl
      · intro t ht
        simpa using hfresh t ht
    rw [hz]
    rfl

/-- Membership after a first-match category replacement. -/
theorem mem_replaceFirstCategory (cats : List Category) (id : String) (nc c : Category)
    (h : c ∈ replaceFirstCategory cats id nc) : c = nc ∨ c ∈ cats := by
  induction cats with
  | nil => cases h
  | cons x rest ih =>
    rw [replaceFirstCategory] at h
    by_cases hx : x.id == id
    · rw [if_pos hx] at h
      rcases List.mem_cons.mp h with ht | ht
      · left; exact ht
      · right; exact List.mem_cons_of_mem x ht
    · rw [if_neg hx] at h
      rcases List.mem_cons.mp h with ht | ht
      · right; rw [ht]; exact List.mem_cons_self x rest
      · rcases ih ht with hl | hr
        · left; exact hl
        · right; exact List.mem_cons_of_mem x hr

/-- updateCategory preserves the derived-count invariant: the merged record
always keeps the current `todoCount`. -/
theorem updateCategory_counts (st : ManagerState) (id : String) (u : CategoryUpdate)
    (b : Bool) (st' : ManagerState)
    (hinv : countsInv st)
    (h : updateCategory st id u = .ok (b, st')) :
    countsInv st' ∧ (catIdsNodup st → catIdsNodup st') := by
  obtain ⟨_, _, cur, hfind, htodos, hcats, _, _⟩ := updateCategory_ok st id u b st' h
  obtain ⟨l₁, l₂, hdec, _, hrep, _⟩ := findCategory_decomp st.categories id cur hfind
  constructor
  · intro c hc
    rw [hcats] at hc
    rw [htodos]
    rcases mem_replaceFirstCategory _ _ _ _ hc with hm | hm
    · rw [hm]
      show cur.todoCount = catCount st.todos _
      show cur.todoCount = catCount st.todos cur.id
      exact hinv cur (findCategory_mem _ _ _ hfind)
    · exact hinv c hm
  · intro hnd
    rw [catIdsNodup, hcats, hrep]
    rw [catIdsNodup, hdec] at hnd
    simpa using hnd

/-- toggleTodoCompletion preserves the derived-count invariant. -/
theorem toggleTodoCompletion_counts (st : ManagerState) (id : String) (now : Date)
    (b : Bool) (st' : ManagerState)
    (hnd : catIdsNodup st) (hinv : countsInv st)
    (h : toggleTodoCompletion st id now = .ok (b, st')) :
    countsInv st' ∧ catIdsNodup st' := by
  obtain ⟨cur, _, hupd⟩ := toggleTodoCompletion_ok st id now b st' h
  exact updateTodo_counts st id _ now b st' hnd hinv hupd

/-- Structure of a successful deleteCategory run: the category's todos were
first resolved (left alone, all deleted, or all moved via updateTodo), then
the category itself was removed. -/
theorem deleteCategory_ok (st : ManagerState) (id : String) (mv : Option String)
    (now : Date) (b : Bool) (st' : ManagerState)
    (h : deleteCategory st id mv now = .ok (b, st')) :
    b = true ∧ ∃ st2,
      st'.todos = st2.todos ∧
      st'.categories = removeFirstCategory st2.categories id ∧
      st'.isInitialized = st2.isInitialized ∧ st'.nextId = st2.nextId ∧
      (st2 = st ∨
       (getTodosByCategoryOf st.todos id).foldlM
         (fun s todo => (deleteTodo s todo.id).map (fun r => r.2)) st = .ok st2 ∨
       ∃ m, mv = some m ∧
         (getTodosByCategoryOf st.todos id).foldlM
           (fun s todo =>
             (updateTodo s todo.id { categoryId := some m } now).map (fun r => r.2))
           st = .ok st2) := by
  rw [deleteCategory] at h
  by_cases hinit : st.isInitialized
  · rw [hinit] at h
    simp only [Bool.not_true, Bool.false_eq_true, if_false] at h
    cases hfind : findCategory st.categories id with
    | none => rw [hfind] at h; exact absurd h (by simp)
    | some cur =>
      rw [hfind] at h
      dsimp only at h
      by_cases hlen : (getTodosByCategoryOf st.todos id).length > 0
      · rw [if_pos hlen] at h
        cases hmv : mv with
        | none =>
          rw [hmv] at h
          cases hres : (getTodosByCategoryOf st.todos id).foldlM
              (fun s todo => (deleteTodo s todo.id).map (fun r => r.2)) st with
          | error e => rw [hres] at h; exact absurd h (by simp)
          | ok st2 =>
            rw [hres] at h
            rw [Except.ok.injEq, Prod.mk.injEq] at h
            obtain ⟨hb, hst⟩ := h
            subst hst
            exact ⟨hb.symm, st2, rfl, rfl, rfl, rfl, Or.inr (Or.inl rfl)⟩
        | some m =>
          rw [hmv] at h
          dsimp only at h
          by_cases hm : (m != "") = true
          · rw [if_pos hm] at h
            by_cases hex : !categoryExistsIn st.categories m
            · rw [if_pos hex] at h; exact absurd h (by simp)
            · rw [if_neg hex] at h
              cases hres : (getTodosByCategoryOf st.todos id).foldlM
                  (fun s todo =>
                    (updateTodo s todo.id { categoryId := some m } now).map (fun r => r.2))
                  st with
              | error e => rw [hres] at h; exact absurd h (by simp)
              | ok st2 =>
                rw [hres] at h
                rw [Except.ok.injEq, Prod.mk.injEq] at h
                obtain ⟨hb, hst⟩ := h
                subst hst
                exact ⟨hb.symm, st2, rfl, rfl, rfl, rfl, Or.inr (Or.inr ⟨m, rfl, hres⟩)⟩
          · rw [if_neg hm] at h
            cases hres : (getTodosByCategoryOf st.todos id).foldlM
                (fun s todo => (deleteTodo s todo.id).map (fun r => r.2)) st with
            | error e => rw [hres] at h; exact absurd h (by simp)
            | ok st2 =>
              rw [hres] at h
              rw [Except.ok.injEq, Prod.mk.injEq] at h
              obtain ⟨hb, hst⟩ := h
              subst hst
              exact ⟨hb.symm, st2, rfl, rfl, rfl, rfl, Or.inr (Or.inl rfl)⟩
      · rw [if_neg hlen] at h
        rw [Except.ok.injEq, Prod.mk.injEq] at h
        obtain ⟨hb, hst⟩ := h
        subst hst
        exact ⟨hb.symm, st, rfl, rfl, rfl, rfl, Or.inl rfl⟩
  · simp only [Bool.not_eq_true] at hinit
    rw [hinit] at h
    exact absurd h (by simp)

/-- An invariant preserved by every successful step is preserved by a
successful monadic fold. -/
theorem foldlM_preserve {α : Type} (P : ManagerState → Prop)
    (f : ManagerState → α → Except String ManagerState)
    (hf : ∀ s a s', P s → f s a = .ok s' → P s') :
    ∀ (l : List α) (s s' : ManagerState), P s → l.foldlM f s = .ok s' → P s' := by
  intro l
  induction l with
  | nil =>
    intro s s' hP h
    rw [List.foldlM_nil] at h
    have : s = s' := by simpa [pure, Except.pure] using h
    rw [← this]
    exact hP
  | cons a rest ih =>
    intro s s' hP h
    rw [List.foldlM_cons] at h
    cases hf1 : f s a with
    | error e =>
      rw [hf1] at h
      exact absurd h (by simp [Bind.bind, Except.bind])
    | ok s1 =>
      rw [hf1] at h
      have h2 : rest.foldlM f s1 = .ok s' := by simpa [Bind.bind, Except.bind] using h
      exact ih s1 s' (hf s a s1 hP hf1) h2

/-- Removing the first match yields a sublist. -/
theorem removeFirstCategory_sublist (cats : List Category) (id : String) :
    (removeFirstCategory cats id).Sublist cats := by
  induction cats with
  | nil => exact List.Sublist.refl []
  | cons x rest ih =>
    rw [removeFirstCategory]
    by_cases hx : x.id == id
    · rw [if_pos hx]
      exact List.sublist_cons_self x rest
    · rw [if_neg hx]
      exact ih.cons₂ x

/-- deleteCategory preserves the derived-count invariant through the
per-todo resolution loop and the final removal. -/
theorem deleteCategory_counts (st : ManagerState) (id : String) (mv : Option String)
    (now : Date) (b : Bool) (st' : ManagerState)
    (hnd : catIdsNodup st) (hinv : countsInv st)
    (h : deleteCategory st id mv now = .ok (b, st')) :
    countsInv st' := by
  obtain ⟨_, st2, htodos, hcats, _, _, hres⟩ := deleteCategory_ok st id mv now b st' h
  have hP : countsInv st2 ∧ catIdsNodup st2 := by
    rcases hres with heq | hfold | ⟨m, _, hfold⟩
    · rw [heq]; exact ⟨hinv, hnd⟩
    · refine foldlM_preserve (fun s => countsInv s ∧ catIdsNodup s) _ ?_ _ st st2
        ⟨hinv, hnd⟩ hfold
      intro s a s' hPs hstep
      cases hd : deleteTodo s a.id with
      | error e => rw [hd] at hstep; exact absurd hstep (by simp [Except.map])
      | ok r =>
        rw [hd] at hstep
        have : r.2 = s' := by simpa [Except.map] using hstep
        rw [← this]
        exact deleteTodo_counts s a.id r.1 r.2 hPs.2 hPs.1 (by rw [hd])
    · refine foldlM_preserve (fun s => countsInv s ∧ catIdsNodup s) _ ?_ _ st st2
        ⟨hinv, hnd⟩ hfold
      intro s a s' hPs hstep
      cases hd : updateTodo s a.id { categoryId := some m } now with
      | error e => rw [hd] at hstep; exact absurd hstep (by simp [Except.map])
      | ok r =>
        rw [hd] at hstep
        have : r.2 = s' := by simpa [Except.map] using hstep
        rw [← this]
        exact updateTodo_counts s a.id _ now r.1 r.2 hPs.2 hPs.1 (by rw [hd])
  intro c hc
  rw [hcats] at hc
  rw [htodos]
  exact hP.1 c ((removeFirstCategory_sublist _ _).mem hc)

/-- Before `isInitialized` is set, every starter `addCategory` call throws
and is swallowed, so the run changes nothing (the C1 bug). -/
theorem createDefaultCategoriesRun_uninit (st : ManagerState)
    (h : st.isInitialized = false) : createDefaultCategoriesRun st = st := by
  have ha : ∀ input, addCategory st input = .error "NOT_INITIALIZED" := by
    intro input
    rw [addCategory, h]
    rfl
  rw [createDefaultCategoriesRun, DEFAULT_CATEGORIES]
  simp [List.foldl, ha]

/-- Initialization establishes the derived-count invariant: every category's
count is recomputed from the loaded todos. -/
theorem tmInitialize_counts (cfg : TodoManagerConfig) (todos : List Todo)
    (cats : List Category) : countsInv (tmInitialize cfg todos cats) := by
  rw [tmInitialize]
  dsimp only
  rw [createDefaultCategoriesRun_uninit _ rfl]
  rw [ite_self]
  intro c hc
  dsimp only at hc
  obtain ⟨c₀, hc₀, hfc⟩ := List.mem_map.mp hc
  rw [← hfc]
  rfl

/-- After replacing the found category by one with the same id, the lookup
returns the replacement. -/
theorem findCategory_replaceFirst (cats : List Category) (id : String) (cur nc : Category)
    (hf : findCategory cats id = some cur) (hid : nc.id = cur.id) :
    findCategory (replaceFirstCategory cats id nc) id = some nc := by
  induction cats with
  | nil => cases hf
  | cons x rest ih =>
    rw [findCategory, List.find?] at hf
    rw [replaceFirstCategory]
    by_cases hx : x.id == id
    · rw [if_pos hx]
      rw [hx] at hf
      rw [findCategory, List.find?]
      have hcur : x = cur := by simpa using hf
      have : (nc.id == id) = true := by
        rw [hid, ← hcur]
        exact hx
      rw [this]
    · rw [if_neg hx]
      have hx' : (x.id == id) = false := by simpa using hx
      rw [hx'] at hf
      rw [findCategory, List.find?, hx']
      exact ih hf

/-- A successful updateCategory leaves the category's `todoCount` exactly as
it was, whatever `todoCount` the caller supplied in the payload. -/
theorem updateCategory_todoCount_preserved (st : ManagerState) (id : String)
    (u : CategoryUpdate) (b : Bool) (st' : ManagerState) (cur : Category)
    (hfind : findCategory st.categories id = some cur)
    (h : updateCategory st id u = .ok (b, st')) :
    ∃ c', findCategory st'.categories id = some c' ∧ c'.todoCount = cur.todoCount := by
  obtain ⟨_, _, cur2, hfind2, _, hcats, _, _⟩ := updateCategory_ok st id u b st' h
  rw [hfind] at hfind2
  have hcc : cur2 = cur := by injection hfind2.symm
  subst hcc
  have hres := findCategory_replaceFirst st.categories id cur2
    { id := cur2.id, name := u.name.getD cur2.name, color := u.color.getD cur2.color,
      todoCount := cur2.todoCount } hfind rfl
  rw [hcats]
  exact ⟨_, hres, rfl⟩

/-- Deleting the last todo of a category leaves that category's count at 0. -/
theorem delete_last_todo_zero (st : ManagerState) (tid : String) (b : Bool)
    (st' : ManagerState) (cur : Todo)
    (hnd : catIdsNodup st) (hinv : countsInv st)
    (hfind : findTodo st.todos tid = some cur)
    (honly : getTodosByCategoryOf st.todos cur.categoryId = [cur])
    (h : deleteTodo st tid = .ok (b, st')) :
    ∀ c', findCategory st'.categories cur.categoryId = some c' → c'.todoCount = 0 := by
  have hinv' := (deleteTodo_counts st tid b st' hnd hinv h).1
  intro c' hc'
  have hmem := findCategory_mem _ _ _ hc'
  have hid := findCategory_some_id _ _ _ hc'
  rw [hinv' c' hmem, hid]
  obtain ⟨_, _, cur2, hfind2, htodos, _⟩ := deleteTodo_ok st tid b st' h
  rw [hfind] at hfind2
  have hcc : cur2 = cur := by injection hfind2.symm
  subst hcc
  obtain ⟨l₁, l₂, hdec, _, _, hrem⟩ := findTodo_decomp st.todos tid cur2 hfind
  rw [hrem] at htodos
  have h1 : catCount st.todos cur2.categoryId = 1 := by
    rw [catCount, honly]
    rfl
  have h2 : catCount st.todos cur2.categoryId =
      catCount l₁ cur2.categoryId + (1 + catCount l₂ cur2.categoryId) := by
    rw [hdec, catCount_middle, if_pos rfl]
  rw [htodos, catCount_append]
  omega

/-- Moving one todo between two distinct categories decrements the source
count and increments the destination count by exactly one. -/
theorem move_todo_counts (st : ManagerState) (tid m : String) (now : Date) (b : Bool)
    (st' : ManagerState) (cur : Todo)
    (hnd : catIdsNodup st) (hinv : countsInv st)
    (hfind : findTodo st.todos tid = some cur)
    (hne : cur.categoryId ≠ m)
    (h : updateTodo st tid { categoryId := some m } now = .ok (b, st')) :
    (∀ csrc csrc', findCategory st.categories cur.categoryId = some csrc →
      findCategory st'.categories cur.categoryId = some csrc' →
      csrc'.todoCount + 1 = csrc.todoCount) ∧
    (∀ cdst cdst', findCategory st.categories m = some cdst →
      findCategory st'.categories m = some cdst' →
      cdst'.todoCount = cdst.todoCount + 1) := by
  have hinv' := (updateTodo_counts st tid _ now b st' hnd hinv h).1
  obtain ⟨_, _, cur2, hfind2, htodos, _⟩ := updateTodo_ok st tid _ now b st' h
  rw [hfind] at hfind2
  have hcc : cur2 = cur := by injection hfind2.symm
  subst hcc
  obtain ⟨l₁, l₂, hdec, _, hrep, _⟩ := findTodo_decomp st.todos tid cur2 hfind
  rw [hrep] at htodos
  set merged := applyTodoUpdate cur2
    (applyCompletionTransition { categoryId := some m } cur2 now) with hmerged
  have hmc : merged.categoryId = m := by
    rw [hmerged, applyTodoUpdate, applyCompletionTransition_categoryId]
    rfl
  have hsrc : catCount st'.todos cur2.categoryId + 1 = catCount st.todos cur2.categoryId := by
    rw [htodos, hdec, catCount_middle, catCount_middle, hmc,
      if_neg (fun he => hne he.symm), if_pos rfl]
    omega
  have hdst : catCount st'.todos m = catCount st.todos m + 1 := by
    rw [htodos, hdec, catCount_middle, catCount_middle, hmc, if_pos rfl,
      if_neg hne]
    omega
  constructor
  · intro csrc csrc' hs hs'
    have e1 : csrc.todoCount = catCount st.todos cur2.categoryId := by
      have := hinv csrc (findCategory_mem _ _ _ hs)
      rw [this, findCategory_some_id _ _ _ hs]
    have e2 : csrc'.todoCount = catCount st'.todos cur2.categoryId := by
      have := hinv' csrc' (findCategory_mem _ _ _ hs')
      rw [this, findCategory_some_id _ _ _ hs']
    rw [e1, e2]
    exact hsrc
  · intro cdst cdst' hs hs'
    have e1 : cdst.todoCount = catCount st.todos m := by
      have := hinv cdst (findCategory_mem _ _ _ hs)
      rw [this, findCategory_some_id _ _ _ hs]
    have e2 : cdst'.todoCount = catCount st'.todos m := by
      have := hinv' cdst' (findCategory_mem _ _ _ hs')
      rw [this, findCategory_some_id _ _ _ hs']
    rw [e1, e2]
    exact hdst

instance (st : ManagerState) : Decidable (countsInv st) :=
  decidable_of_iff (∀ c ∈ st.categories, c.todoCount = catCount st.todos c.id) Iff.rfl

instance (st : ManagerState) : Decidable (catIdsNodup st) :=
  inferInstanceAs (Decidable ((st.categories.map (fun c : Category => c.id)).Nodup))

/-- C7: after initialization and after every successful coordinator
operation, each category's `todoCount` equals the number of todos whose
`categoryId` is that category's id (given pairwise-distinct category ids,
and for addCategory a fresh generated id); a caller-supplied `todoCount` in
an updateCategory payload is never applied; deleting the last todo of a
category leaves its count at 0; and moving a todo between categories
decrements the source and increments the destination exactly once. -/
theorem C7_todoCount_invariant :
    (∀ cfg todos cats, countsInv (tmInitialize cfg todos cats)) ∧
    (∀ st input now todo st', catIdsNodup st → countsInv st →
      addTodo st input now = .ok (todo, st') → countsInv st') ∧
    (∀ st id u now b st', catIdsNodup st → countsInv st →
      updateTodo st id u now = .ok (b, st') → countsInv st') ∧
    (∀ st id b st', catIdsNodup st → countsInv st →
      deleteTodo st id = .ok (b, st') → countsInv st') ∧
    (∀ st id now b st', catIdsNodup st → countsInv st →
      toggleTodoCompletion st id now = .ok (b, st') → countsInv st') ∧
    (∀ st input cat st', (∀ t ∈ st.todos, t.categoryId ≠ uuid st.nextId) → countsInv st →
      addCategory st input = .ok (cat, st') → countsInv st') ∧
    (∀ st id u b st', countsInv st → updateCategory st id u = .ok (b, st') → countsInv st') ∧
    (∀ st id mv now b st', catIdsNodup st → countsInv st →
      deleteCategory st id mv now = .ok (b, st') → countsInv st') ∧
    (∀ st id u b st' cur, findCategory st.categories id = some cur →
      updateCategory st id u = .ok (b, st') →
      ∃ c', findCategory st'.categories id = some c' ∧ c'.todoCount = cur.todoCount) ∧
    (∀ st tid b st' cur, catIdsNodup st → countsInv st →
      findTodo st.todos tid = some cur →
      getTodosByCategoryOf st.todos cur.categoryId = [cur] →
      deleteTodo st tid = .ok (b, st') →
      ∀ c', findCategory st'.categories cur.categoryId = some c' → c'.todoCount = 0) ∧
    (∀ st tid m now b st' cur, catIdsNodup st → countsInv st →
      findTodo st.todos tid = some cur → cur.categoryId ≠ m →
      updateTodo st tid { categoryId := some m } now = .ok (b, st') →
      (∀ csrc csrc', findCategory st.categories cur.categoryId = some csrc →
        findCategory st'.categories cur.categoryId = some csrc' →
        csrc'.todoCount + 1 = csrc.todoCount) ∧
      (∀ cdst cdst', findCategory st.categories m = some cdst →
        findCategory st'.categories m = some cdst' →
        cdst'.todoCount = cdst.todoCount + 1)) := by
  refine ⟨tmInitialize_counts, ?_, ?_, ?_, ?_, ?_, ?_, ?_,
    updateCategory_todoCount_preserved, delete_last_todo_zero, move_todo_counts⟩
  · intro st input now todo st' hnd hinv h
    exact (addTodo_counts st input now todo st' hnd hinv h).1
  · intro st id u now b st' hnd hinv h
    exact (updateTodo_counts st id u now b st' hnd hinv h).1
  · intro st id b st' hnd hinv h
    exact (deleteTodo_counts st id b st' hnd hinv h).1
  · intro st id now b st' hnd hinv h
    exact (toggleTodoCompletion_counts st id now b st' hnd hinv h).1
  · intro st input cat st' hfresh hinv h
    exact addCategory_counts st input cat st' hfresh hinv h
  · intro st id u b st' hinv h
    exact (updateCategory_counts st id u b st' hinv h).1
  · intro st id mv now b st' hnd hinv h
    exact deleteCategory_counts st id mv now b st' hnd hinv h

/-- An initialized state with one empty category, for the C7 witness. -/
def c7State : ManagerState :=
  { todos := [],
    categories := [{ id := "c1", name := "General", color := "#ffffff", todoCount := 0 }],
    isInitialized := true,
    nextId := 0 }

/-- A valid todo input targeting the category of `c7State`. -/
def c7Input : TodoInput :=
  { title := "Buy milk", description := none, completed := false,
    priority := .high, categoryId := "c1", dueDate := none }

/-- Instantiation of C7: adding a first todo to the empty category yields a
state still satisfying the derived-count invariant. -/
theorem C7_todoCount_invariant_witness :
    countsInv { todos := [createTodo c7Input (uuid 0) 5],
                categories := [{ id := "c1", name := "General", color := "#ffffff",
                                 todoCount := 1 }],
                isInitialized := true,
                nextId := 1 } :=
  C7_todoCount_invariant.2.1 c7State c7Input 5 (createTodo c7Input (uuid 0) 5)
    { todos := [createTodo c7Input (uuid 0) 5],
      categories := [{ id := "c1", name := "General", color := "#ffffff", todoCount := 1 }],
      isInitialized := true,
      nextId := 1 }
    (by decide) (by decide) (by decide)
